import Mathlib

/-!
Verification of the RO-Crate consolidation engine.

This file contains a shallow embedding of the core of the consolidation
library (the modules id, collect, merge, transform and consolidate) and
proofs about the embedded definitions.

Modelling conventions:
* JSON values are modelled by the inductive type `JValue`; mappings are
  association lists whose key insertion order is preserved and whose keys
  are unique in any value produced by the original program.
* Equality of JSON mappings in the original program is key-set based, so
  structural equality of values is modelled by `jStructEq`, which compares
  mappings per key and everything else structurally.
* Mutable hash sets are modelled as lists used as sets, hash map insertion
  as replace-or-append on association lists.
* The recursive hierarchy walk takes a fuel parameter; `none` means the
  fuel was exhausted, so a run whose result is `none` for every fuel value
  models a non-terminating run.
* The subcrate loader is modelled as a function returning `Option`,
  `none` standing for any load failure.
-/

inductive JValue where
  | str (s : String)
  | num (n : Int)
  | bool (b : Bool)
  | null
  | arr (elems : List JValue)
  | obj (fields : List (String × JValue))
deriving Repr

/-- Lookup of a key in an association list, first match wins. -/
def getKey (fields : List (String × JValue)) (k : String) : Option JValue :=
  match fields with
  | [] => none
  | (k2, v) :: rest => if k2 = k then some v else getKey rest k

/-- Map insertion: replace the value in place if the key is present,
append the pair otherwise. -/
def objInsert (fields : List (String × JValue)) (k : String) (v : JValue) :
    List (String × JValue) :=
  if fields.any (fun p => p.1 == k) then
    fields.map (fun p => if p.1 == k then (k, v) else p)
  else fields ++ [(k, v)]

/-- `Value::get` of the original program: key lookup on mappings, `none`
on every other shape. -/
def jget (v : JValue) (k : String) : Option JValue :=
  match v with
  | .obj fields => getKey fields k
  | _ => none

mutual
/-- Structural equality of JSON values as the original program compares
them: mappings are equal when they have the same size and every field of
the left one is matched by an equal field of the right one. -/
def jStructEq : JValue → JValue → Bool
  | .str a, b => match b with | .str b2 => a == b2 | _ => false
  | .num a, b => match b with | .num b2 => a == b2 | _ => false
  | .bool a, b => match b with | .bool b2 => a == b2 | _ => false
  | .null, b => match b with | .null => true | _ => false
  | .arr xs, b => match b with | .arr ys => jStructEqList xs ys | _ => false
  | .obj fs, b =>
    match b with
    | .obj gs => fs.length == gs.length && jStructEqFields fs gs
    | _ => false

def jStructEqList : List JValue → List JValue → Bool
  | [], ys => ys.isEmpty
  | x :: xs, ys =>
    match ys with
    | [] => false
    | y :: ys2 => jStructEq x y && jStructEqList xs ys2

def jStructEqFields : List (String × JValue) → List (String × JValue) → Bool
  | [], _ => true
  | (k, v) :: rest, gs =>
    (match getKey gs k with | some w => jStructEq v w | none => false)
      && jStructEqFields rest gs
end

/-! ## Characters and strings

The identifiers handled by the program are ASCII, so character positions
coincide with the byte positions used by the original code. -/

def strStarts (s p : String) : Bool := p.data.isPrefixOf s.data

def strEnds (s p : String) : Bool := p.data.isSuffixOf s.data

def strDropChars (s : String) (n : Nat) : String := String.mk (s.data.drop n)

def dropTrailingSlashesL (l : List Char) : List Char :=
  (l.reverse.dropWhile (fun c => c == '/')).reverse

/-- `trim_end_matches` of a slash. -/
def dropTrailingSlashes (s : String) : String := String.mk (dropTrailingSlashesL s.data)

/-- Character index of the last slash of a string, if any. -/
def lastSlashIdx (s : String) : Option Nat :=
  go s.data 0 none
where
  go : List Char → Nat → Option Nat → Option Nat
  | [], _, acc => acc
  | c :: rest, i, acc => go rest (i + 1) (if c = '/' then some i else acc)

/-- The characters following the first occurrence of the scheme
separator. -/
def afterSchemeSep : List Char → Option (List Char)
  | ':' :: '/' :: '/' :: rest => some rest
  | _ :: rest => afterSchemeSep rest
  | [] => none

/-- The characters following the first slash. -/
def afterFirstSlash : List Char → Option (List Char)
  | '/' :: rest => some rest
  | _ :: rest => afterFirstSlash rest
  | [] => none

/-! ## Module id: classification and rewriting of identifiers -/

inductive IdKind where
  | Root
  | Relative
  | Fragment
  | Absolute
  | MetadataDescriptor
deriving Repr, DecidableEq

/-- Classify an identifier string. -/
def classify_id (id : String) : IdKind :=
  if id = "./" then .Root
  else if strEnds id "ro-crate-metadata.json" then .MetadataDescriptor
  else if strStarts id "#" then .Fragment
  else if strStarts id "http://" || strStarts id "https://" || strStarts id "urn:"
      || strStarts id "mailto:" || strStarts id "arcp:" then .Absolute
  else .Relative

/-- Rewrite an identifier into a namespace; returns the new identifier,
whether it changed, and the updated fragment registry. -/
def rewrite_id (id nspace : String) (used_fragments : List String) :
    String × Bool × List String :=
  if nspace = "" then (id, false, used_fragments)
  else
    match classify_id id with
    | .Root => ("./" ++ nspace ++ "/", true, used_fragments)
    | .Relative =>
      let clean_id := if strStarts id "./" then strDropChars id 2 else id
      ("./" ++ nspace ++ "/" ++ clean_id, true, used_fragments)
    | .Fragment =>
      if used_fragments.contains id then
        let new_id := "#" ++ nspace ++ "-" ++ strDropChars id 1
        (new_id, true, new_id :: used_fragments)
      else (id, false, id :: used_fragments)
    | .Absolute => (id, false, used_fragments)
    | .MetadataDescriptor => (id, false, used_fragments)

/-- Replace-or-append insertion into the identifier map. -/
def mapInsert (m : List (String × String)) (k v : String) : List (String × String) :=
  if m.any (fun p => p.1 == k) then
    m.map (fun p => if p.1 == k then (k, v) else p)
  else m ++ [(k, v)]

def mapGet (m : List (String × String)) (k : String) : Option String :=
  match m with
  | [] => none
  | (k2, v) :: rest => if k2 = k then some v else mapGet rest k

/-- Build the identifier map of one document, threading the fragment
registry. Only changed identifiers get an entry. -/
def build_id_map (ids : List String) (nspace : String) (used_fragments : List String) :
    List (String × String) × List String :=
  ids.foldl
    (fun acc id =>
      let r := rewrite_id id nspace acc.2
      (if r.2.1 then mapInsert acc.1 id r.1 else acc.1, r.2.2))
    ([], used_fragments)

mutual
/-- Rewrite every identifier reference found in a value: at each mapping
carrying a string identifier field that is a key of the map, the field is
replaced, and the walk recurses into all children. -/
def rewrite_references (id_map : List (String × String)) : JValue → JValue
  | .obj fields =>
    let walked := rewrite_ref_fields id_map fields
    (match getKey fields "@id" with
     | some (.str s) =>
       match mapGet id_map s with
       | some new_id => .obj (objInsert walked "@id" (.str new_id))
       | none => .obj walked
     | _ => .obj walked)
  | .arr xs => .arr (rewrite_ref_list id_map xs)
  | v => v

def rewrite_ref_fields (id_map : List (String × String)) :
    List (String × JValue) → List (String × JValue)
  | [] => []
  | (k, v) :: rest => (k, rewrite_references id_map v) :: rewrite_ref_fields id_map rest

def rewrite_ref_list (id_map : List (String × String)) : List JValue → List JValue
  | [] => []
  | x :: xs => rewrite_references id_map x :: rewrite_ref_list id_map xs
end

/-- Derive a namespace from a folder-style identifier. -/
def namespace_from_folder_id (folder_id : String) : String :=
  if strStarts folder_id "http://" || strStarts folder_id "https://" then
    let without_trailing := dropTrailingSlashes folder_id
    let from_last_segment : Option String :=
      match lastSlashIdx without_trailing with
      | some pos =>
        let segment := strDropChars without_trailing (pos + 1)
        if segment ≠ "" then some segment else none
      | none => none
    match from_last_segment with
    | some segment => segment
    | none =>
      match afterSchemeSep folder_id.data with
      | some after_scheme =>
        (match afterFirstSlash after_scheme with
         | some rest => String.mk (dropTrailingSlashesL rest)
         | none => folder_id)
      | none => folder_id
  else
    dropTrailingSlashes (if strStarts folder_id "./" then strDropChars folder_id 2 else folder_id)

/-- Validate a folder identifier for an explicit merge. -/
def validate_folder_id (folder_id : String) : Except String Unit :=
  if folder_id = "" then .error "Folder ID cannot be empty"
  else if folder_id = "./" then .error "Folder ID cannot be root ./"
  else if !strEnds folder_id "/" then .error ("Folder ID must end with /: " ++ folder_id)
  else if strStarts folder_id "http://" || strStarts folder_id "https://" then
    .error "Folder ID cannot be an absolute URL"
  else .ok ()

/-! ## Module collect: partitioning the entities of one document -/

/-- An entity together with its original identifier and the namespace of
the document it came from (`namespace` in the original program). -/
structure CollectedEntity where
  entity : JValue
  original_id : String
  nspace : String
deriving Repr

structure CrateCollection where
  local_entities : List CollectedEntity
  shared_entities : List CollectedEntity
  subcrate_ids : List String
  root_entity : Option CollectedEntity
  metadata_descriptor : Option CollectedEntity
deriving Repr

def extract_id (entity : JValue) : Option String :=
  match jget entity "@id" with
  | some (.str s) => some s
  | _ => none

def extract_types (entity : JValue) : List String :=
  match jget entity "@type" with
  | some (.str t) => [t]
  | some (.arr xs) => xs.filterMap (fun v => match v with | .str s => some s | _ => none)
  | _ => []

def has_type (entity : JValue) (type_name : String) : Bool :=
  (extract_types entity).any (fun t => t == type_name)

/-- Whether an identifier denotes conformance to the RO-Crate profile. -/
def is_rocrate_conformance (id : String) : Bool :=
  strStarts id "https://w3id.org/ro/crate/" || id == "https://w3id.org/ro/crate"
    || strStarts id "https://w3id.org/ro/crate#"

def conforms_check_id (v : JValue) : Bool :=
  match jget v "@id" with
  | some (.str id) => is_rocrate_conformance id
  | _ => false

def conforms_to_rocrate (entity : JValue) : Bool :=
  match jget entity "conformsTo" with
  | some c =>
    (match c with
     | .obj _ => conforms_check_id c
     | .arr xs => xs.any conforms_check_id
     | .str s => is_rocrate_conformance s
     | _ => false)
  | none => false

def is_subcrate_ref (entity : JValue) : Bool :=
  has_type entity "Dataset" && conforms_to_rocrate entity

/-- One step of the collection loop: one entity is classified and placed
into a bucket; an entity without a string identifier is skipped. -/
def collect_step (nspace : String) (acc : CrateCollection) (entity : JValue) :
    CrateCollection :=
  match extract_id entity with
  | none => acc
  | some id =>
    let collected : CollectedEntity := ⟨entity, id, nspace⟩
    match classify_id id with
    | .Root => { acc with root_entity := some collected }
    | .MetadataDescriptor => { acc with metadata_descriptor := some collected }
    | .Absolute =>
      let acc1 := if is_subcrate_ref entity then
          { acc with subcrate_ids := acc.subcrate_ids ++ [id] } else acc
      { acc1 with shared_entities := acc1.shared_entities ++ [collected] }
    | .Relative | .Fragment =>
      let acc1 := if is_subcrate_ref entity && id ≠ "./" then
          { acc with subcrate_ids := acc.subcrate_ids ++ [id] } else acc
      { acc1 with local_entities := acc1.local_entities ++ [collected] }

def collect_from_graph (graph : List JValue) (nspace : String) : CrateCollection :=
  graph.foldl (collect_step nspace) ⟨[], [], [], none, none⟩

/-! ## Module merge: the union merge strategy -/

/-- Semantic equality used by the merger: two mappings that each carry a
single identifier field compare by identifier, everything else compares
structurally. -/
def values_equal (a b : JValue) : Bool :=
  match a, b with
  | .obj fa, .obj fb =>
    if fa.length == 1 && fb.length == 1 then
      match getKey fa "@id", getKey fb "@id" with
      | some ia, some ib => jStructEq ia ib
      | _, _ => jStructEq a b
    else jStructEq a b
  | _, _ => jStructEq a b

def contains_value (xs : List JValue) (v : JValue) : Bool :=
  xs.any (fun x => values_equal x v)

def push_if_absent (xs : List JValue) (v : JValue) : List JValue :=
  if contains_value xs v then xs else xs ++ [v]

/-- Union of two arrays: all of the left side, then each element of the
right side not already present by semantic equality. -/
def array_union (xs : List JValue) (ys : List JValue) : List JValue :=
  ys.foldl push_if_absent xs

mutual
/-- Merge two values with the union strategy of the original program. -/
def union_merge_values (a b : JValue) : JValue :=
  if values_equal a b then a
  else
    match a, b with
    | .arr xs, .arr ys => .arr (array_union xs ys)
    | .arr xs, other => .arr (push_if_absent xs other)
    | other, .arr ys => .arr (push_if_absent ys other)
    | .obj fa, .obj fb => .obj (merge_objects fa fb)
    | _, _ => .arr [a, b]
termination_by sizeOf b

/-- Merge two mappings key by key, the right one folded into the left. -/
def merge_objects (r : List (String × JValue)) : List (String × JValue) → List (String × JValue)
  | [] => r
  | (k, v) :: rest =>
    let r2 := match getKey r k with
      | some va => objInsert r k (union_merge_values va v)
      | none => objInsert r k v
    merge_objects r2 rest
termination_by l => sizeOf l
end

def extract_types_as_vec (fields : List (String × JValue)) : List String :=
  match getKey fields "@type" with
  | some (.str t) => [t]
  | some (.arr xs) => xs.filterMap (fun v => match v with | .str s => some s | _ => none)
  | _ => []

def merge_type_arrays (a b : List String) : List String :=
  b.foldl (fun acc t => if acc.contains t then acc else acc ++ [t]) a

/-- Insertion sort on strings; the original program sorts the merged key
list, and any comparison sort yields this result. -/
def insertSorted (x : String) : List String → List String
  | [] => [x]
  | y :: ys => if x ≤ y then x :: y :: ys else y :: insertSorted x ys

def sortStr : List String → List String
  | [] => []
  | x :: xs => insertSorted x (sortStr xs)

/-- Removal of adjacent duplicates, as `Vec::dedup`. -/
def dedupAdj : List String → List String
  | [] => []
  | [x] => [x]
  | x :: y :: rest => if x = y then dedupAdj (y :: rest) else x :: dedupAdj (y :: rest)

/-- Merge two entities sharing one identifier: the identifier is taken
from the left entity, the types are unioned, every other key is merged
with `union_merge_values`. -/
def union_merge_entities (a b : JValue) : JValue :=
  match a, b with
  | .obj fa, .obj fb =>
    let result0 : List (String × JValue) :=
      match getKey fa "@id" with
      | some id => [("@id", id)]
      | none => []
    let merged_types := merge_type_arrays (extract_types_as_vec fa) (extract_types_as_vec fb)
    let result1 :=
      if merged_types.isEmpty then result0
      else if merged_types.length = 1 then
        objInsert result0 "@type" (.str merged_types.head!)
      else objInsert result0 "@type" (.arr (merged_types.map JValue.str))
    let all_keys := dedupAdj (sortStr
      (((fa.map Prod.fst) ++ (fb.map Prod.fst)).filter
        (fun k => k ≠ "@id" && k ≠ "@type")))
    .obj (all_keys.foldl
      (fun r k =>
        match getKey fa k, getKey fb k with
        | some va, some vb => objInsert r k (union_merge_values va vb)
        | some v, none => objInsert r k v
        | none, some v => objInsert r k v
        | none, none => r)
      result1)
  | .obj _, _ => a
  | _, _ => a

def dedupFirst (l : List String) : List String :=
  go l []
where
  go : List String → List String → List String
  | [], _ => []
  | x :: rest, seen => if seen.contains x then go rest seen else x :: go rest (x :: seen)

/-- Group the collected entities by original identifier and fold each
group through `union_merge_entities`; the original program groups with a
hash map, whose iteration order is unspecified, so the output order used
here is first occurrence order. -/
def merge_by_id (entities : List CollectedEntity) : List JValue :=
  let ids := dedupFirst (entities.map (fun e => e.original_id))
  ids.map (fun id =>
    match (entities.filter (fun e => e.original_id == id)).map (fun e => e.entity) with
    | [] => JValue.null
    | e :: rest => rest.foldl union_merge_entities e)

/-! ## Module transform: subcrate folder synthesis -/

def is_rocrate_conforms_to (value : JValue) : Bool :=
  match value with
  | .obj _ => conforms_check_id value
  | .arr xs => xs.any conforms_check_id
  | .str s => is_rocrate_conformance s
  | _ => false

def should_strip_property (key : String) (value : JValue) : Bool :=
  if key = "subjectOf" then true
  else if key = "conformsTo" then is_rocrate_conforms_to value
  else false

/-- Build the synthesized subcrate folder entity from the parent-side
reference, the subcrate root and the provenance list. -/
def create_subcrate_folder (folder_id : String) (parent_folder : Option JValue)
    (subcrate_root : JValue) (consolidated_entity_ids : List String)
    (add_subcrate_type : Bool) : JValue :=
  let result0 : List (String × JValue) := [("@id", .str folder_id)]
  let result1 :=
    match parent_folder with
    | some (.obj parent) =>
      parent.foldl
        (fun r p =>
          if p.1 ≠ "@id" && p.1 ≠ "@type" && !should_strip_property p.1 p.2 then
            objInsert r p.1 p.2
          else r)
        result0
    | _ => result0
  let result2 :=
    match subcrate_root with
    | .obj rootf =>
      rootf.foldl
        (fun r p =>
          if p.1 = "@id" || p.1 = "@type" then r
          else if should_strip_property p.1 p.2 then r
          else
            match getKey r p.1 with
            | some existing => objInsert r p.1 (union_merge_values existing p.2)
            | none => objInsert r p.1 p.2)
        result1
    | _ => result1
  let types0 : List String := ["Dataset"]
  let types1 := if add_subcrate_type then types0 ++ ["Subcrate"] else types0
  let types2 :=
    match parent_folder with
    | some pf =>
      (extract_types pf).foldl
        (fun ts t => if t ≠ "Dataset" && !ts.contains t then ts ++ [t] else ts) types1
    | none => types1
  let types3 :=
    (extract_types subcrate_root).foldl
      (fun ts t => if t ≠ "Dataset" && !ts.contains t then ts ++ [t] else ts) types2
  let result3 :=
    if types3.length = 1 then objInsert result2 "@type" (.str types3.head!)
    else objInsert result2 "@type" (.arr (types3.map JValue.str))
  let result4 :=
    if consolidated_entity_ids.isEmpty then result3
    else objInsert result3 "consolidatedEntities"
      (.arr (consolidated_entity_ids.map (fun id => JValue.obj [("@id", .str id)])))
  .obj result4

/-- The fold extending a hasPart list with folder references, skipping
references already present. -/
def has_part_fold (old : List JValue) (ids : List String) : List JValue :=
  ids.foldl
    (fun acc folder_id =>
      let reference := JValue.obj [("@id", .str folder_id)]
      if acc.any (fun v => jStructEq v reference) then acc else acc ++ [reference])
    old

/-- The hasPart list of an entity, a single value being wrapped. -/
def has_part_list (fields : List (String × JValue)) : List JValue :=
  match getKey fields "hasPart" with
  | some (.arr xs) => xs
  | some v => [v]
  | none => []

/-- Extend the hasPart of the root entity with one reference per folder. -/
def update_root_has_part (root : JValue) (subcrate_folder_ids : List String) : JValue :=
  match root with
  | .obj fields =>
    let has_part := has_part_fold (has_part_list fields) subcrate_folder_ids
    if has_part.isEmpty then .obj fields
    else .obj (objInsert fields "hasPart" (.arr has_part))
  | v => v

/-! ## Module consolidate: the hierarchy walker -/

inductive ConsolidateError where
  | LoadError (path reason : String)
  | InvalidFolderId (msg : String)
  | DuplicateFolderId (id : String)
  | MissingRootEntity
  | MissingMetadataDescriptor
deriving Repr, DecidableEq

structure ConsolidateOptions where
  add_subcrate_type : Bool
  extend_context : Bool
deriving Repr

def optionsDefault : ConsolidateOptions := ⟨true, true⟩

structure MergeCrate where
  graph : List JValue
  folder_id : String
  name : Option String

inductive ConsolidateInput where
  | Single (graph : List JValue)
  | Merge (main : List JValue) (others : List MergeCrate)

structure ConsolidateStats where
  crates_consolidated : Nat
  total_entities : Nat
  merged_entities : Nat
deriving Repr, DecidableEq

structure ConsolidateResult where
  graph : List JValue
  context : JValue
  stats : ConsolidateStats
deriving Repr

/-- The run-global mutable state of the walker. -/
structure WalkGlobal where
  visited : List String
  fragments : List String
  all_local : List CollectedEntity
  all_shared : List CollectedEntity
  subcrate_folders : List JValue
  stats : ConsolidateStats
deriving Repr

/-- The two in-out slots holding the captured root entity and metadata
descriptor; the recursion gives each subcrate call fresh slots. -/
structure RootSlots where
  root_entity : Option JValue
  metadata_descriptor : Option JValue
deriving Repr

/-- A loader answering `none` models any load failure. -/
abbrev Loader := String → String → Option (List JValue)

def noOpLoader : Loader := fun _ _ => none

/-- The loop over the discovered subcrate identifiers of one document;
`rec` is the recursive hierarchy walk at the remaining fuel. -/
def process_subcrates (loader : Loader) (options : ConsolidateOptions)
    (rec : List JValue → String → WalkGlobal → RootSlots → Option (WalkGlobal × RootSlots)) :
    List String → List JValue → String → WalkGlobal → RootSlots →
      Option (WalkGlobal × RootSlots)
  | [], _, _, g, slots => some (g, slots)
  | subcrate_id :: rest, graph, nspace, g, slots =>
    let sub_ns := if nspace = "" then namespace_from_folder_id subcrate_id
      else nspace ++ "/" ++ namespace_from_folder_id subcrate_id
    if g.visited.contains sub_ns then
      process_subcrates loader options rec rest graph nspace g slots
    else
      let g1 := { g with visited := sub_ns :: g.visited }
      match loader subcrate_id nspace with
      | none => process_subcrates loader options rec rest graph nspace g1 slots
      | some sub_graph =>
        let parent_folder := graph.find? (fun e => extract_id e == some subcrate_id)
        match rec sub_graph sub_ns g1 ⟨none, none⟩ with
        | none => none
        | some (g2, sub_slots) =>
          match sub_slots.root_entity with
          | some sub_root =>
            let folder_id := if nspace = "" then subcrate_id else "./" ++ sub_ns ++ "/"
            let contained_ids := (g2.all_local.filter (fun e =>
                e.nspace == sub_ns || strStarts e.nspace (sub_ns ++ "/"))).filterMap
                (fun e => extract_id e.entity)
            let folder := create_subcrate_folder folder_id parent_folder sub_root
              contained_ids options.add_subcrate_type
            process_subcrates loader options rec rest graph nspace
              { g2 with subcrate_folders := g2.subcrate_folders ++ [folder] } slots
          | none => process_subcrates loader options rec rest graph nspace g2 slots

/-- One step of the walk applied to one document: collect, rewrite, tag,
then descend into the discovered subcrates. -/
def walk_document (loader : Loader) (options : ConsolidateOptions)
    (rec : List JValue → String → WalkGlobal → RootSlots → Option (WalkGlobal × RootSlots))
    (graph : List JValue) (nspace : String) (g : WalkGlobal) (slots : RootSlots) :
    Option (WalkGlobal × RootSlots) :=
  let g0 := { g with stats :=
    { g.stats with crates_consolidated := g.stats.crates_consolidated + 1 } }
  let collection := collect_from_graph graph nspace
  let ids := collection.local_entities.map (fun e => e.original_id)
    ++ (collection.root_entity.map (fun e => e.original_id)).toList
  let built := build_id_map ids nspace g0.fragments
  let id_map := built.1
  let g1 := { g0 with fragments := built.2 }
  let slots1 :=
    if nspace = "" then
      { root_entity :=
          match collection.root_entity with
          | some c => some c.entity
          | none => slots.root_entity
        metadata_descriptor :=
          match collection.metadata_descriptor with
          | some c => some c.entity
          | none => slots.metadata_descriptor }
    else slots
  let new_locals := collection.local_entities.map (fun c =>
    let e1 := match mapGet id_map c.original_id with
      | some new_id =>
        (match c.entity with
         | .obj fs => JValue.obj (objInsert fs "@id" (.str new_id))
         | v => v)
      | none => c.entity
    { c with entity := rewrite_references id_map e1 })
  let g2 := { g1 with
    all_local := g1.all_local ++ new_locals
    all_shared := g1.all_shared ++ collection.shared_entities }
  process_subcrates loader options rec collection.subcrate_ids graph nspace g2 slots1

/-- The recursive hierarchy walk, indexed by fuel; `none` means the fuel
ran out before the walk finished. -/
def collect_hierarchy (loader : Loader) (options : ConsolidateOptions) :
    Nat → List JValue → String → WalkGlobal → RootSlots → Option (WalkGlobal × RootSlots)
  | 0, _, _, _, _ => none
  | fuel + 1, graph, nspace, g, slots =>
    walk_document loader options
      (fun gr ns2 g2 s2 => collect_hierarchy loader options fuel gr ns2 g2 s2)
      graph nspace g slots

/-- The loop over the explicit merge entries. -/
def process_merges (loader : Loader) (options : ConsolidateOptions) (fuel : Nat) :
    List MergeCrate → WalkGlobal → Option (Except ConsolidateError WalkGlobal)
  | [], g => some (.ok g)
  | mc :: rest, g =>
    match validate_folder_id mc.folder_id with
    | .error e => some (.error (.InvalidFolderId e))
    | .ok _ =>
      let nspace := namespace_from_folder_id mc.folder_id
      if g.visited.contains nspace then some (.error (.DuplicateFolderId mc.folder_id))
      else
        let g1 := { g with visited := nspace :: g.visited }
        let parent_folder := mc.name.map (fun n =>
          JValue.obj [("@id", .str mc.folder_id), ("@type", .str "Dataset"), ("name", .str n)])
        match collect_hierarchy loader options fuel mc.graph nspace g1 ⟨none, none⟩ with
        | none => none
        | some (g2, _) =>
          let merge_collection := collect_from_graph mc.graph nspace
          let g3 :=
            match merge_collection.root_entity with
            | some merge_root =>
              let contained_ids := (g2.all_local.filter (fun e =>
                  e.nspace == nspace || strStarts e.nspace (nspace ++ "/"))).filterMap
                  (fun e => extract_id e.entity)
              { g2 with subcrate_folders := g2.subcrate_folders ++
                  [create_subcrate_folder mc.folder_id parent_folder merge_root.entity
                    contained_ids options.add_subcrate_type] }
            | none => g2
          process_merges loader options fuel rest g3

def initialGlobal : WalkGlobal := ⟨[], [], [], [], [], ⟨0, 0, 0⟩⟩

/-- The collection phase of a run: walk the main document and then the
explicit merge entries. -/
def collect_phase (loader : Loader) (options : ConsolidateOptions) (fuel : Nat)
    (input : ConsolidateInput) : Option (Except ConsolidateError (WalkGlobal × RootSlots)) :=
  let parts := match input with
    | .Single graph => (graph, [])
    | .Merge main others => (main, others)
  match collect_hierarchy loader options fuel parts.1 "" initialGlobal ⟨none, none⟩ with
  | none => none
  | some (g1, slots) =>
    match process_merges loader options fuel parts.2 g1 with
    | none => none
    | some (.error e) => some (.error e)
    | some (.ok g2) => some (.ok (g2, slots))

def context_extension : JValue :=
  .obj [("Subcrate", .str "https://w3id.org/ro/terms/consolidate/Subcrate"),
    ("consolidatedEntities", .obj
      [("@id", .str "https://w3id.org/ro/terms/consolidate/consolidatedEntities"),
       ("@container", .str "@set"),
       ("@type", .str "@id")])]

/-- The main consolidation function. -/
def consolidate (loader : Loader) (options : ConsolidateOptions) (fuel : Nat)
    (input : ConsolidateInput) : Option (Except ConsolidateError ConsolidateResult) :=
  match collect_phase loader options fuel input with
  | none => none
  | some (.error e) => some (.error e)
  | some (.ok (g, slots)) =>
    let shared_before := g.all_shared.length
    let merged_shared := merge_by_id g.all_shared
    match slots.metadata_descriptor with
    | none => some (.error .MissingMetadataDescriptor)
    | some desc =>
      match slots.root_entity with
      | none => some (.error .MissingRootEntity)
      | some root =>
        let folder_ids := g.subcrate_folders.filterMap extract_id
        let root2 := update_root_has_part root folder_ids
        let final_graph := desc :: root2 ::
          (g.all_local.map (fun c => c.entity) ++ g.subcrate_folders ++ merged_shared)
        let stats : ConsolidateStats :=
          { crates_consolidated := g.stats.crates_consolidated
            total_entities := final_graph.length
            merged_entities := shared_before - merged_shared.length }
        let context := if options.extend_context then
            JValue.arr [.str "https://w3id.org/ro/crate/1.1/context", context_extension]
          else .str "https://w3id.org/ro/crate/1.1/context"
        some (.ok ⟨final_graph, context, stats⟩)

/-! ## Observers on run results -/

/-- The final graph of a successful run. -/
def run_graph (r : Option (Except ConsolidateError ConsolidateResult)) :
    Option (List JValue) :=
  match r with
  | some (.ok res) => some res.graph
  | _ => none

/-- A single identifier reference object. -/
def folder_ref (folder_id : String) : JValue := .obj [("@id", .str folder_id)]

/-! ## Concrete documents used as test inputs -/

def descE : JValue := .obj [("@id", .str "ro-crate-metadata.json"),
  ("@type", .str "CreativeWork"), ("about", .obj [("@id", .str "./")])]

def rootMain : JValue := .obj [("@id", .str "./"), ("@type", .str "Dataset"),
  ("name", .str "Root Crate"), ("hasPart", .arr [.obj [("@id", .str "./experiments/")]])]

/-- The parent-side reference entity of the discovered subcrate. -/
def expRef : JValue := .obj [("@id", .str "./experiments/"), ("@type", .str "Dataset"),
  ("conformsTo", .obj [("@id", .str "https://w3id.org/ro/crate/1.2")])]

def subRootE : JValue := .obj [("@id", .str "./"), ("@type", .str "Dataset"),
  ("name", .str "Experiments")]

def fileE : JValue := .obj [("@id", .str "./data.csv"), ("@type", .str "File")]

/-- The file entity after namespacing under `experiments`. -/
def fileERw : JValue := .obj [("@id", .str "./experiments/data.csv"), ("@type", .str "File")]

def graphMain : List JValue := [descE, rootMain, expRef]

def subGraphE : List JValue := [descE, subRootE, fileE]

def loaderExp : Loader := fun id _ => if id = "./experiments/" then some subGraphE else none

def fragTop : JValue := .obj [("@id", .str "#p"), ("@type", .str "Person"), ("name", .str "Top")]

def fragSub : JValue := .obj [("@id", .str "#p"), ("@type", .str "Person"), ("name", .str "Sub")]

def graphFrag : List JValue := [descE, rootMain, fragTop, expRef]

def subGraphFrag : List JValue := [descE, subRootE, fragSub]

def loaderFrag : Loader := fun id _ => if id = "./experiments/" then some subGraphFrag else none

def otherRoot : JValue := .obj [("@id", .str "./"), ("@type", .str "Dataset"),
  ("description", .str "Imported data")]

def otherFile : JValue := .obj [("@id", .str "./results.csv"), ("@type", .str "File")]

def otherGraph : List JValue := [descE, otherRoot, otherFile]

def mcImported : MergeCrate := ⟨otherGraph, "./imported/", some "Imported Dataset"⟩

/-! ## Claim C10 -/

theorem collect_step_skips_idless (nspace : String) (acc : CrateCollection) (e : JValue)
    (h : extract_id e = none) : collect_step nspace acc e = acc := by
  unfold collect_step
  rw [h]

/-- Claim C10: an element of an input graph that does not carry a
string-valued identifier field is skipped by the collector: it is placed
in no bucket of the collection, at whatever position of the graph it
occurs, and causes no error. -/
theorem c10_collector_skips_entity_without_id (g1 g2 : List JValue) (nspace : String)
    (e : JValue) (h : extract_id e = none) :
    collect_from_graph (g1 ++ e :: g2) nspace = collect_from_graph (g1 ++ g2) nspace := by
  unfold collect_from_graph
  rw [List.foldl_append, List.foldl_append, List.foldl_cons,
    collect_step_skips_idless nspace _ e h]

/-- Witness for C10 at a concrete input: an entity carrying only a type
is dropped from the collection. -/
theorem c10_witness :
    extract_id (JValue.obj [("@type", .str "Thing")]) = none ∧
    collect_from_graph [rootMain, JValue.obj [("@type", .str "Thing")], fileE] ""
      = collect_from_graph [rootMain, fileE] "" := by
  refine ⟨rfl, ?_⟩
  exact c10_collector_skips_entity_without_id [rootMain] [fileE] ""
    (JValue.obj [("@type", .str "Thing")]) rfl

/-! ## Claim C1 -/

/-- Claim C1 (code bug): a successful run whose top-level document and
subcrate both contain the fragment `#p` ends with both entities still
carrying `#p`: the empty-namespace early return of `rewrite_id` never
registers top-level fragments, so the collision is not detected, the
later occurrence is not renamed, and the identifiers of the final
document are not globally unique. -/
theorem c1_duplicate_fragment_identifiers_in_output :
    (run_graph (consolidate loaderFrag optionsDefault 10 (.Single graphFrag))).map
        (fun gr => gr.filterMap extract_id)
      = some ["ro-crate-metadata.json", "./", "#p", "./experiments/", "#p"] ∧
    ¬ List.Pairwise (fun a b => a ≠ b)
        ["ro-crate-metadata.json", "./", "#p", "./experiments/", "#p"] := by
  exact ⟨rfl, by decide⟩

/-! ## Claim C2 -/

/-- Claim C2 (code bug): the subcrate at `./experiments/` loads
successfully and its entities are absorbed, yet the final graph contains
no synthesized folder at all: the walk captures a root entity only when
the namespace is empty, so the recursive call never hands a subcrate
root back to its parent and the folder branch is dead for discovered
subcrates. The reference entity keeps its original shape and no entity
is typed `Subcrate`. -/
theorem c2_no_folder_for_discovered_subcrate :
    run_graph (consolidate loaderExp optionsDefault 10 (.Single graphMain))
      = some [descE, rootMain, expRef, fileERw] ∧
    ([descE, rootMain, expRef, fileERw].countP (fun e => has_type e "Subcrate") = 0 ∧
     [descE, rootMain, expRef, fileERw].countP
       (fun e => extract_id e == some "./experiments/") = 1) := by
  exact ⟨rfl, by decide⟩

/-! ## Claim C8 -/

/-- Claim C8: a discovered subcrate whose load fails is skipped without
failing the run: processing continues with the remaining subcrate
identifiers and the only state change is the claimed namespace, so the
reference entity already placed in the local bucket stays there. The
second conjunct shows a whole run with an always-failing loader: the run
succeeds and the original reference entity is in the output. -/
theorem c8_load_failure_skips_and_continues :
    (∀ (loader : Loader) (options : ConsolidateOptions) rec subcrate_id rest graph nspace
        (g : WalkGlobal) (slots : RootSlots),
      g.visited.contains (if nspace = "" then namespace_from_folder_id subcrate_id
          else nspace ++ "/" ++ namespace_from_folder_id subcrate_id) = false →
      loader subcrate_id nspace = none →
      process_subcrates loader options rec (subcrate_id :: rest) graph nspace g slots =
        process_subcrates loader options rec rest graph nspace
          { g with visited := (if nspace = "" then namespace_from_folder_id subcrate_id
              else nspace ++ "/" ++ namespace_from_folder_id subcrate_id) :: g.visited }
          slots) ∧
    (run_graph (consolidate noOpLoader optionsDefault 10 (.Single graphMain))
        = some [descE, rootMain, expRef] ∧
      [descE, rootMain, expRef].countP (fun e => jStructEq e expRef) = 1) := by
  refine ⟨?_, rfl, by decide⟩
  intro loader options rec subcrate_id rest graph nspace g slots h1 h2
  simp only [process_subcrates]
  rw [h1]
  simp only [Bool.false_eq_true, if_false]
  rw [h2]

/-- Witness for C8 at concrete inputs. -/
theorem c8_witness :
    process_subcrates noOpLoader optionsDefault (fun _ _ _ _ => none)
        ["./experiments/"] graphMain "" initialGlobal ⟨none, none⟩ =
      process_subcrates noOpLoader optionsDefault (fun _ _ _ _ => none)
        [] graphMain ""
        { initialGlobal with visited := (if ("" : String) = "" then
            namespace_from_folder_id "./experiments/"
          else "" ++ "/" ++ namespace_from_folder_id "./experiments/") :: initialGlobal.visited }
        ⟨none, none⟩ := by
  exact c8_load_failure_skips_and_continues.1 noOpLoader optionsDefault
    (fun _ _ _ _ => none) "./experiments/" [] graphMain "" initialGlobal ⟨none, none⟩
    (by decide) rfl

/-! ## Claim C9 -/

/-- Claim C9: each explicit merge entry has its folder identifier
validated before its document is processed, the run failing fatally when
the identifier is empty, equals `./`, lacks a trailing slash, or is an
absolute URL; and a valid folder identifier whose namespace was already
claimed fails fatally with a duplicate-folder error instead of the
silent skip used for duplicate discovered namespaces. -/
theorem c9_explicit_merge_validation :
    (∀ folder_id : String,
      validate_folder_id folder_id = .ok () ↔
        (folder_id ≠ "" ∧ folder_id ≠ "./" ∧ strEnds folder_id "/" = true ∧
          strStarts folder_id "http://" = false ∧ strStarts folder_id "https://" = false)) ∧
    (∀ (loader : Loader) (options : ConsolidateOptions) (fuel : Nat) (mc : MergeCrate)
        (rest : List MergeCrate) (g : WalkGlobal) (e : String),
      validate_folder_id mc.folder_id = .error e →
      process_merges loader options fuel (mc :: rest) g =
        some (.error (.InvalidFolderId e))) ∧
    (∀ (loader : Loader) (options : ConsolidateOptions) (fuel : Nat) (mc : MergeCrate)
        (rest : List MergeCrate) (g : WalkGlobal),
      validate_folder_id mc.folder_id = .ok () →
      g.visited.contains (namespace_from_folder_id mc.folder_id) = true →
      process_merges loader options fuel (mc :: rest) g =
        some (.error (.DuplicateFolderId mc.folder_id))) := by
  refine ⟨?_, ?_, ?_⟩
  · intro folder_id
    unfold validate_folder_id
    split_ifs with h1 h2 h3 h4 <;> try simp_all
    rcases h4 with h | h <;> simp [h]
  · intro loader options fuel mc rest g e h
    simp only [process_merges]
    rw [h]
  · intro loader options fuel mc rest g h1 h2
    simp only [process_merges]
    rw [h1, h2]
    simp

/-- Witness for C9 at concrete inputs: the identifier without a trailing
slash is rejected, and reusing `./imported/` after its namespace was
claimed is a fatal duplicate. -/
theorem c9_witness :
    validate_folder_id "no-trailing-slash" =
        .error "Folder ID must end with /: no-trailing-slash" ∧
    process_merges noOpLoader optionsDefault 10 [⟨otherGraph, "no-trailing-slash", none⟩]
        initialGlobal =
      some (.error (.InvalidFolderId "Folder ID must end with /: no-trailing-slash")) ∧
    process_merges noOpLoader optionsDefault 10 [mcImported]
        { initialGlobal with visited := ["imported"] } =
      some (.error (.DuplicateFolderId "./imported/")) := by
  refine ⟨rfl, ?_, ?_⟩
  · exact c9_explicit_merge_validation.2.1 noOpLoader optionsDefault 10
      ⟨otherGraph, "no-trailing-slash", none⟩ [] initialGlobal _ rfl
  · exact c9_explicit_merge_validation.2.2 noOpLoader optionsDefault 10
      mcImported [] { initialGlobal with visited := ["imported"] } rfl (by decide)

/-! ## Claim C5: a cyclic hierarchy

A graph consisting of one subcrate reference, with a loader that answers
every request with that same graph, models a subcrate that references
its own ancestor. -/

def cycEntity : JValue := .obj [("@id", .str "./a/"), ("@type", .str "Dataset"),
  ("conformsTo", .obj [("@id", .str "https://w3id.org/ro/crate/1.2")])]

def cycGraph : List JValue := [cycEntity]

def cycLoader : Loader := fun _ _ => some cycGraph

/-- The namespace the walker assigns to the subcrate discovered in
`cycGraph` under a given parent namespace. -/
def cyc_child (nspace : String) : String :=
  if nspace = "" then namespace_from_folder_id "./a/"
  else nspace ++ "/" ++ namespace_from_folder_id "./a/"

theorem collect_cyc (nspace : String) :
    collect_from_graph cycGraph nspace = ⟨[⟨cycEntity, "./a/", nspace⟩], [], ["./a/"], none, none⟩ :=
  rfl

theorem len_cyc_child (nspace : String) :
    (cyc_child nspace).length = if nspace = "" then 1 else nspace.length + 2 := by
  unfold cyc_child
  split
  · rfl
  · rw [String.length_append, String.length_append]
    rw [show ("/" : String).length = 1 from rfl,
      show (namespace_from_folder_id "./a/").length = 1 from rfl]

theorem cyc_child_ne_empty (nspace : String) : cyc_child nspace ≠ "" := by
  intro h
  have h1 := len_cyc_child nspace
  rw [h] at h1
  rw [show ("" : String).length = 0 from rfl] at h1
  split at h1 <;> omega

theorem cyc_ps (options : ConsolidateOptions)
    (rec : List JValue → String → WalkGlobal → RootSlots → Option (WalkGlobal × RootSlots))
    (hrec : ∀ ns2 (g2 : WalkGlobal) s2,
      (∀ s ∈ g2.visited, s.length < (cyc_child ns2).length) →
      rec cycGraph ns2 g2 s2 = none) :
    ∀ (nspace : String) (g : WalkGlobal) (slots : RootSlots),
      (∀ s ∈ g.visited, s.length < (cyc_child nspace).length) →
      process_subcrates cycLoader options rec ["./a/"] cycGraph nspace g slots = none := by
  intro nspace g slots hinv
  have hmemf : g.visited.contains (cyc_child nspace) = false := by
    rcases h : g.visited.contains (cyc_child nspace) with _ | _
    · rfl
    · exact absurd (hinv _ (List.elem_iff.mp h)) (lt_irrefl _)
  have hlen2 : (cyc_child (cyc_child nspace)).length = (cyc_child nspace).length + 2 := by
    rw [len_cyc_child (cyc_child nspace), if_neg (cyc_child_ne_empty nspace)]
  have hinv2 : ∀ s ∈ cyc_child nspace :: g.visited,
      s.length < (cyc_child (cyc_child nspace)).length := by
    intro s hs
    rw [List.mem_cons] at hs
    rcases hs with rfl | hs
    · omega
    · have := hinv s hs
      omega
  have hr := hrec (cyc_child nspace)
      { visited := cyc_child nspace :: g.visited, fragments := g.fragments,
        all_local := g.all_local, all_shared := g.all_shared,
        subcrate_folders := g.subcrate_folders, stats := g.stats } ⟨none, none⟩ hinv2
  simp only [process_subcrates]
  rw [show (if nspace = "" then namespace_from_folder_id "./a/"
      else nspace ++ "/" ++ namespace_from_folder_id "./a/") = cyc_child nspace from rfl]
  rw [hmemf]
  simp only [Bool.false_eq_true, if_false, cycLoader]
  rw [hr]

/-- Claim C5 (code bug): on a cyclic subcrate reference the walk never
finishes, whatever the fuel: every descent level forms a strictly longer
child namespace, so the visited check never fires and the recursion
re-enters the cycle forever. The hypothesis states that every claimed
namespace is shorter than the next child namespace, which holds of every
reachable state and trivially of the initial one. -/
theorem c5_cycle_does_not_terminate (options : ConsolidateOptions) :
    ∀ (fuel : Nat) (nspace : String) (g : WalkGlobal) (slots : RootSlots),
      (∀ s ∈ g.visited, s.length < (cyc_child nspace).length) →
      collect_hierarchy cycLoader options fuel cycGraph nspace g slots = none := by
  intro fuel
  induction fuel with
  | zero => intro nspace g slots _; rfl
  | succ fuel ih =>
    intro nspace g slots hinv
    simp only [collect_hierarchy, walk_document, collect_cyc]
    refine cyc_ps options _ (fun ns2 g2 s2 h2 => ih ns2 g2 s2 h2) nspace _ _ ?_
    exact hinv

/-- Witness for C5: with fuel 5 and a fresh state the cyclic run is
still unfinished. -/
theorem c5_witness :
    collect_hierarchy cycLoader optionsDefault 5 cycGraph "" initialGlobal ⟨none, none⟩
      = none := by
  exact c5_cycle_does_not_terminate optionsDefault 5 "" initialGlobal ⟨none, none⟩
    (by intro s hs; cases hs)

/-! ## Claim C4: shape of the final document -/

theorem consolidate_of_phase_ok (loader : Loader) (options : ConsolidateOptions)
    (fuel : Nat) (input : ConsolidateInput) (g : WalkGlobal) (slots : RootSlots)
    (desc root : JValue)
    (hphase : collect_phase loader options fuel input = some (.ok (g, slots)))
    (hdesc : slots.metadata_descriptor = some desc)
    (hroot : slots.root_entity = some root) :
    consolidate loader options fuel input = some (.ok
      { graph := desc ::
          update_root_has_part root (g.subcrate_folders.filterMap extract_id) ::
          (g.all_local.map (fun c => c.entity) ++ g.subcrate_folders
            ++ merge_by_id g.all_shared)
        context := if options.extend_context then
            JValue.arr [.str "https://w3id.org/ro/crate/1.1/context", context_extension]
          else .str "https://w3id.org/ro/crate/1.1/context"
        stats :=
          { crates_consolidated := g.stats.crates_consolidated
            total_entities := (g.all_local.map (fun c => c.entity) ++ g.subcrate_folders
              ++ merge_by_id g.all_shared).length + 1 + 1
            merged_entities := g.all_shared.length - (merge_by_id g.all_shared).length } }) := by
  unfold consolidate
  rw [hphase]
  simp only [hdesc, hroot]
  rfl

theorem consolidate_missing_descriptor (loader : Loader) (options : ConsolidateOptions)
    (fuel : Nat) (input : ConsolidateInput) (g : WalkGlobal) (slots : RootSlots)
    (hphase : collect_phase loader options fuel input = some (.ok (g, slots)))
    (hdesc : slots.metadata_descriptor = none) :
    consolidate loader options fuel input = some (.error .MissingMetadataDescriptor) := by
  unfold consolidate
  rw [hphase]
  simp only [hdesc]

theorem consolidate_missing_root (loader : Loader) (options : ConsolidateOptions)
    (fuel : Nat) (input : ConsolidateInput) (g : WalkGlobal) (slots : RootSlots)
    (desc : JValue)
    (hphase : collect_phase loader options fuel input = some (.ok (g, slots)))
    (hdesc : slots.metadata_descriptor = some desc)
    (hroot : slots.root_entity = none) :
    consolidate loader options fuel input = some (.error .MissingRootEntity) := by
  unfold consolidate
  rw [hphase]
  simp only [hdesc, hroot]

/-- Claim C4: when the collection phase succeeds, a successful run emits
exactly the metadata descriptor, then the root entity with its updated
hasPart, then the local entities in accumulation order, then the
subcrate folders in accumulation order, then the merged shared entities
(in the deterministic order this model picks for the unspecified hash
map order); and the run fails fatally with a missing-descriptor or
missing-root error when the top-level document yielded none. -/
theorem c4_final_graph_shape :
    (∀ (loader : Loader) (options : ConsolidateOptions) (fuel : Nat)
        (input : ConsolidateInput) (g : WalkGlobal) (slots : RootSlots) (desc root : JValue),
      collect_phase loader options fuel input = some (.ok (g, slots)) →
      slots.metadata_descriptor = some desc →
      slots.root_entity = some root →
      ∃ res, consolidate loader options fuel input = some (.ok res) ∧
        res.graph = desc ::
          update_root_has_part root (g.subcrate_folders.filterMap extract_id) ::
          (g.all_local.map (fun c => c.entity) ++ g.subcrate_folders
            ++ merge_by_id g.all_shared)) ∧
    (∀ (loader : Loader) (options : ConsolidateOptions) (fuel : Nat)
        (input : ConsolidateInput) (g : WalkGlobal) (slots : RootSlots),
      collect_phase loader options fuel input = some (.ok (g, slots)) →
      slots.metadata_descriptor = none →
      consolidate loader options fuel input = some (.error .MissingMetadataDescriptor)) ∧
    (∀ (loader : Loader) (options : ConsolidateOptions) (fuel : Nat)
        (input : ConsolidateInput) (g : WalkGlobal) (slots : RootSlots) (desc : JValue),
      collect_phase loader options fuel input = some (.ok (g, slots)) →
      slots.metadata_descriptor = some desc →
      slots.root_entity = none →
      consolidate loader options fuel input = some (.error .MissingRootEntity)) := by
  refine ⟨?_, ?_, ?_⟩
  · intro loader options fuel input g slots desc root hphase hdesc hroot
    exact ⟨_, consolidate_of_phase_ok loader options fuel input g slots desc root
      hphase hdesc hroot, rfl⟩
  · intro loader options fuel input g slots hphase hdesc
    exact consolidate_missing_descriptor loader options fuel input g slots hphase hdesc
  · intro loader options fuel input g slots desc hphase hdesc hroot
    exact consolidate_missing_root loader options fuel input g slots desc hphase hdesc hroot

/-- Witness for C4: the shape theorem applied to a concrete successful
run. -/
theorem c4_witness :
    ∃ res, consolidate noOpLoader optionsDefault 10 (.Single graphMain) = some (.ok res) ∧
      res.graph = descE :: update_root_has_part rootMain [] :: [expRef] := by
  have hphase : collect_phase noOpLoader optionsDefault 10 (.Single graphMain) =
      some (.ok (⟨["experiments"], [], [⟨expRef, "./experiments/", ""⟩], [], [],
        ⟨1, 0, 0⟩⟩, ⟨some rootMain, some descE⟩)) := rfl
  obtain ⟨res, h1, h2⟩ := c4_final_graph_shape.1 noOpLoader optionsDefault 10
    (.Single graphMain) _ _ descE rootMain hphase rfl rfl
  exact ⟨res, h1, h2⟩

/-! ## Lemmas about map lookup and insertion -/

theorem getKey_replace_ne (fields : List (String × JValue)) (k k' : String) (v : JValue)
    (h : k' ≠ k) :
    getKey (fields.map (fun p => if p.1 == k then (k, v) else p)) k' = getKey fields k' := by
  induction fields with
  | nil => rfl
  | cons p rest ih =>
    obtain ⟨k2, w⟩ := p
    simp only [List.map_cons]
    by_cases h2 : (k2 == k) = true
    · have hk2 : k2 = k := by simpa using h2
      rw [if_pos h2]
      simp only [getKey]
      rw [if_neg (fun hh => h hh.symm), if_neg (fun hh => h (hk2 ▸ hh).symm)]
      exact ih
    · rw [if_neg h2]
      simp only [getKey]
      split
      · rfl
      · exact ih

theorem getKey_append_single_ne (fields : List (String × JValue)) (k k' : String) (v : JValue)
    (h : k' ≠ k) : getKey (fields ++ [(k, v)]) k' = getKey fields k' := by
  induction fields with
  | nil =>
    simp only [List.nil_append, getKey]
    rw [if_neg (fun hh => h hh.symm)]
  | cons p rest ih =>
    obtain ⟨k2, w⟩ := p
    simp only [List.cons_append, getKey]
    split
    · rfl
    · exact ih

theorem getKey_objInsert_ne (fields : List (String × JValue)) (k k' : String) (v : JValue)
    (h : k' ≠ k) : getKey (objInsert fields k v) k' = getKey fields k' := by
  unfold objInsert
  split
  · exact getKey_replace_ne fields k k' v h
  · exact getKey_append_single_ne fields k k' v h

theorem getKey_objInsert_self (fields : List (String × JValue)) (k : String) (v : JValue) :
    getKey (objInsert fields k v) k = some v := by
  unfold objInsert
  split
  case isTrue hany =>
    induction fields with
    | nil => simp at hany
    | cons p rest ih =>
      obtain ⟨k2, w⟩ := p
      simp only [List.map_cons]
      by_cases h2 : (k2 == k) = true
      · rw [if_pos h2]
        simp [getKey]
      · rw [if_neg h2]
        simp only [getKey]
        rw [if_neg (fun hh => h2 (by simp [hh]))]
        apply ih
        simpa [h2] using hany
  case isFalse hany =>
    induction fields with
    | nil => simp [getKey]
    | cons p rest ih =>
      obtain ⟨k2, w⟩ := p
      simp only [List.cons_append, getKey]
      rw [if_neg (fun hh => hany (by simp [List.any_cons, hh]))]
      apply ih
      intro hh
      exact hany (by simp [List.any_cons, hh])

/-! ## Lemmas about the hasPart extension -/

theorem jStructEq_folder_ref (a b : String) :
    jStructEq (folder_ref a) (folder_ref b) = (a == b) := by
  simp [folder_ref, jStructEq, jStructEqFields, getKey]

theorem has_part_fold_cons (old : List JValue) (id : String) (rest : List String) :
    has_part_fold old (id :: rest) =
      has_part_fold (if old.any (fun v => jStructEq v (folder_ref id)) then old
        else old ++ [folder_ref id]) rest := rfl

theorem hp_front : ∀ (ids : List String) (old : List JValue), old <+: has_part_fold old ids := by
  intro ids
  induction ids with
  | nil => intro old; exact List.prefix_refl old
  | cons id rest ih =>
    intro old
    rw [has_part_fold_cons]
    refine List.IsPrefix.trans ?_ (ih _)
    split
    · exact List.prefix_refl old
    · exact List.prefix_append old [folder_ref id]

theorem hp_any_mono (ids : List String) (old : List JValue) (q : JValue → Bool)
    (h : old.any q = true) : (has_part_fold old ids).any q = true := by
  rw [List.any_eq_true] at h ⊢
  obtain ⟨x, hx, hqx⟩ := h
  exact ⟨x, (hp_front ids old).subset hx, hqx⟩

theorem hp_mem_ref : ∀ (ids : List String) (old : List JValue) (fid : String), fid ∈ ids →
    (has_part_fold old ids).any (fun v => jStructEq v (folder_ref fid)) = true := by
  intro ids
  induction ids with
  | nil => intro old fid h; cases h
  | cons id rest ih =>
    intro old fid hmem
    rw [has_part_fold_cons]
    rcases List.mem_cons.mp hmem with rfl | hmem2
    · split
      case isTrue hq => exact hp_any_mono rest old _ hq
      case isFalse hq =>
        refine hp_any_mono rest _ _ ?_
        rw [List.any_eq_true]
        exact ⟨folder_ref fid, List.mem_append_right old (List.mem_singleton.mpr rfl),
          by rw [jStructEq_folder_ref]; exact beq_self_eq_true fid⟩
    · exact ih _ fid hmem2

theorem hp_provenance : ∀ (ids : List String) (old : List JValue) (x : JValue),
    x ∈ has_part_fold old ids → x ∈ old ∨ ∃ fid ∈ ids, x = folder_ref fid := by
  intro ids
  induction ids with
  | nil => intro old x h; exact Or.inl h
  | cons id rest ih =>
    intro old x h
    rw [has_part_fold_cons] at h
    rcases ih _ x h with hmem | ⟨fid, hfid, rfl⟩
    · split at hmem
      · exact Or.inl hmem
      · rcases List.mem_append.mp hmem with hmem2 | hmem2
        · exact Or.inl hmem2
        · exact Or.inr ⟨id, List.mem_cons_self id rest,
            (List.mem_singleton.mp hmem2)⟩
    · exact Or.inr ⟨fid, List.mem_cons_of_mem id hfid, rfl⟩

theorem hp_count_stable : ∀ (ids : List String) (old : List JValue) (fid : String),
    1 ≤ old.countP (fun v => jStructEq v (folder_ref fid)) →
    (has_part_fold old ids).countP (fun v => jStructEq v (folder_ref fid)) =
      old.countP (fun v => jStructEq v (folder_ref fid)) := by
  intro ids
  induction ids with
  | nil => intro old fid _; rfl
  | cons id rest ih =>
    intro old fid hpos
    rw [has_part_fold_cons]
    split
    case isTrue hq => exact ih old fid hpos
    case isFalse hq =>
      by_cases hii : id = fid
      · subst hii
        exact absurd (by
          rw [List.any_eq_true]
          exact List.countP_pos_iff.mp hpos) hq
      · rw [ih _ fid ?_, List.countP_append]
        · simp [List.countP_cons, jStructEq_folder_ref, hii]
        · rw [List.countP_append]
          simpa using Nat.le_add_right_of_le hpos

theorem hp_count_one : ∀ (ids : List String) (old : List JValue) (fid : String), fid ∈ ids →
    old.countP (fun v => jStructEq v (folder_ref fid)) = 0 →
    (has_part_fold old ids).countP (fun v => jStructEq v (folder_ref fid)) = 1 := by
  intro ids
  induction ids with
  | nil => intro old fid h; cases h
  | cons id rest ih =>
    intro old fid hmem hzero
    rw [has_part_fold_cons]
    by_cases hii : id = fid
    · subst hii
      have hq : old.any (fun v => jStructEq v (folder_ref id)) = false := by
        rw [List.any_eq_false]
        intro x hx
        exact (List.countP_eq_zero.mp hzero) x hx
      rw [if_neg (by rw [hq]; exact Bool.false_ne_true)]
      rw [hp_count_stable rest _ id ?_]
      · rw [List.countP_append, hzero]
        simp [List.countP_cons, jStructEq_folder_ref]
      · rw [List.countP_append, hzero]
        simp [List.countP_cons, jStructEq_folder_ref]
    · have hmem2 : fid ∈ rest := by
        rcases List.mem_cons.mp hmem with h | h
        · exact absurd h.symm hii
        · exact h
      split
      next hq => exact ih old fid hmem2 hzero
      next hq =>
        refine ih _ fid hmem2 ?_
        rw [List.countP_append, hzero]
        simp [List.countP_cons, jStructEq_folder_ref, hii]

theorem update_root_has_part_obj (fields : List (String × JValue)) (ids : List String) :
    update_root_has_part (.obj fields) ids =
      if (has_part_fold (has_part_list fields) ids).isEmpty then .obj fields
      else .obj (objInsert fields "hasPart" (.arr (has_part_fold (has_part_list fields) ids))) :=
  rfl

theorem urhp_other_keys (root : JValue) (ids : List String) (k : String)
    (h : k ≠ "hasPart") : jget (update_root_has_part root ids) k = jget root k := by
  cases root with
  | obj fields =>
    rw [update_root_has_part_obj]
    split
    · rfl
    · simp only [jget]
      exact getKey_objInsert_ne fields "hasPart" k _ h
  | str s => rfl
  | num n => rfl
  | bool b => rfl
  | null => rfl
  | arr xs => rfl

theorem urhp_haspart (fields : List (String × JValue)) (ids : List String)
    (h : (has_part_fold (has_part_list fields) ids).isEmpty = false) :
    jget (update_root_has_part (.obj fields) ids) "hasPart" =
      some (.arr (has_part_fold (has_part_list fields) ids)) := by
  rw [update_root_has_part_obj, h]
  simp only [Bool.false_eq_true, if_false, jget]
  exact getKey_objInsert_self fields "hasPart" _

/-! ## No folder is produced below the top level -/

theorem append_slash_ne_empty (a b : String) : a ++ "/" ++ b ≠ "" := by
  intro h
  have h2 := congrArg String.length h
  rw [String.length_append, String.length_append] at h2
  rw [show ("/" : String).length = 1 from rfl, show ("" : String).length = 0 from rfl] at h2
  omega

theorem ps_nested_preserves (loader : Loader) (options : ConsolidateOptions)
    (rec : List JValue → String → WalkGlobal → RootSlots → Option (WalkGlobal × RootSlots))
    (hrec : ∀ gr ns2 (g2 : WalkGlobal) s2 out2, ns2 ≠ "" → rec gr ns2 g2 s2 = some out2 →
      out2.2 = s2 ∧ out2.1.subcrate_folders = g2.subcrate_folders) :
    ∀ (ids : List String) (graph : List JValue) (nspace : String) (g : WalkGlobal)
      (slots : RootSlots) (out : WalkGlobal × RootSlots), nspace ≠ "" →
      process_subcrates loader options rec ids graph nspace g slots = some out →
      out.2 = slots ∧ out.1.subcrate_folders = g.subcrate_folders := by
  intro ids
  induction ids with
  | nil =>
    intro graph nspace g slots out _ h
    simp only [process_subcrates] at h
    cases h
    exact ⟨rfl, rfl⟩
  | cons id rest ih =>
    intro graph nspace g slots out hns h
    simp only [process_subcrates] at h
    rw [if_neg hns] at h
    split at h
    · exact ih graph nspace g slots out hns h
    · split at h
      · have h2 := ih graph nspace _ slots out hns h
        exact h2
      · split at h
        · exact Option.noConfusion h
        · next g2 sub_slots heq =>
          obtain ⟨hslots, hfold⟩ := hrec _ _ _ _ (g2, sub_slots)
            (append_slash_ne_empty nspace (namespace_from_folder_id id)) heq
          have hroot : sub_slots.root_entity = none := by rw [show sub_slots =
            (⟨none, none⟩ : RootSlots) from hslots]
          rw [hroot] at h
          have hrest := ih graph nspace g2 slots out hns h
          exact ⟨hrest.1, by rw [hrest.2]; exact hfold⟩

theorem walk_nested_preserves (loader : Loader) (options : ConsolidateOptions) :
    ∀ (fuel : Nat) (graph : List JValue) (nspace : String) (g : WalkGlobal)
      (slots : RootSlots) (out : WalkGlobal × RootSlots), nspace ≠ "" →
      collect_hierarchy loader options fuel graph nspace g slots = some out →
      out.2 = slots ∧ out.1.subcrate_folders = g.subcrate_folders := by
  intro fuel
  induction fuel with
  | zero => intro graph nspace g slots out _ h; cases h
  | succ fuel ih =>
    intro graph nspace g slots out hns h
    simp only [collect_hierarchy, walk_document] at h
    rw [if_neg hns] at h
    have h2 := ps_nested_preserves loader options _
      (fun gr ns2 g2 s2 out2 hns2 hr => ih gr ns2 g2 s2 out2 hns2 hr)
      _ graph nspace _ slots out hns h
    exact h2

/-! ## Claim C7 -/

/-- Claim C7: at finalization the root entity's hasPart is extended,
never replaced: the previous entries stay as a prefix, each folder
identifier gains exactly one reference object unless an equal entry was
already present, every added entry is the reference of a supplied
folder, and every other property of the root is untouched. The walker
produces folders only at the top level: a call on a non-empty namespace
returns the folder accumulator and the root slots unchanged, so every
folder handed to the hasPart update was produced directly under the
top-level document. -/
theorem c7_root_has_part_extension :
    (∀ (root : JValue) (ids : List String) (k : String), k ≠ "hasPart" →
      jget (update_root_has_part root ids) k = jget root k) ∧
    (∀ (ids : List String) (old : List JValue), old <+: has_part_fold old ids) ∧
    (∀ (ids : List String) (old : List JValue) (fid : String), fid ∈ ids →
      (has_part_fold old ids).any (fun v => jStructEq v (folder_ref fid)) = true) ∧
    (∀ (ids : List String) (old : List JValue) (x : JValue), x ∈ has_part_fold old ids →
      x ∈ old ∨ ∃ fid ∈ ids, x = folder_ref fid) ∧
    (∀ (ids : List String) (old : List JValue) (fid : String), fid ∈ ids →
      old.countP (fun v => jStructEq v (folder_ref fid)) = 0 →
      (has_part_fold old ids).countP (fun v => jStructEq v (folder_ref fid)) = 1) ∧
    (∀ (loader : Loader) (options : ConsolidateOptions) (fuel : Nat) (graph : List JValue)
        (nspace : String) (g : WalkGlobal) (slots : RootSlots) (out : WalkGlobal × RootSlots),
      nspace ≠ "" → collect_hierarchy loader options fuel graph nspace g slots = some out →
      out.2 = slots ∧ out.1.subcrate_folders = g.subcrate_folders) ∧
    (∀ (loader : Loader) (options : ConsolidateOptions) (fuel : Nat)
        (input : ConsolidateInput) (g : WalkGlobal) (slots : RootSlots) (desc root : JValue),
      collect_phase loader options fuel input = some (.ok (g, slots)) →
      slots.metadata_descriptor = some desc →
      slots.root_entity = some root →
      ∃ res, consolidate loader options fuel input = some (.ok res) ∧
        res.graph.get? 1 =
          some (update_root_has_part root (g.subcrate_folders.filterMap extract_id))) := by
  refine ⟨urhp_other_keys, hp_front, hp_mem_ref, hp_provenance, hp_count_one,
    ?_, ?_⟩
  · intro loader options fuel graph nspace g slots out hns h
    exact walk_nested_preserves loader options fuel graph nspace g slots out hns h
  · intro loader options fuel input g slots desc root hphase hdesc hroot
    refine ⟨_, consolidate_of_phase_ok loader options fuel input g slots desc root
      hphase hdesc hroot, rfl⟩

/-- The folder synthesized for the explicit merge at `./imported/`. -/
def importedFolder : JValue := .obj
  [("@id", .str "./imported/"),
   ("name", .str "Imported Dataset"),
   ("description", .str "Imported data"),
   ("@type", .arr [.str "Dataset", .str "Subcrate"]),
   ("consolidatedEntities", .arr [.obj [("@id", .str "./imported/results.csv")]])]

/-- Witness for C7 at concrete inputs: property preservation, reference
insertion and deduplicated counting on a concrete hasPart list, and a
concrete explicit-merge run whose root gains exactly the reference to
the one folder produced under the top level. -/
theorem c7_witness :
    jget (update_root_has_part rootMain ["./imported/"]) "name" = jget rootMain "name" ∧
    (has_part_fold [folder_ref "./experiments/"] ["./imported/"]).any
      (fun v => jStructEq v (folder_ref "./imported/")) = true ∧
    (has_part_fold [folder_ref "./experiments/"] ["./imported/"]).countP
      (fun v => jStructEq v (folder_ref "./imported/")) = 1 ∧
    (∃ res, consolidate noOpLoader optionsDefault 10 (.Merge graphMain [mcImported])
        = some (.ok res) ∧
      res.graph.get? 1 = some (update_root_has_part rootMain ["./imported/"])) := by
  refine ⟨c7_root_has_part_extension.1 rootMain ["./imported/"] "name" (by decide),
    c7_root_has_part_extension.2.2.1 ["./imported/"] [folder_ref "./experiments/"]
      "./imported/" (List.mem_singleton.mpr rfl),
    c7_root_has_part_extension.2.2.2.2.1 ["./imported/"] [folder_ref "./experiments/"]
      "./imported/" (List.mem_singleton.mpr rfl) (by decide), ?_⟩
  have hphase : collect_phase noOpLoader optionsDefault 10 (.Merge graphMain [mcImported]) =
      some (.ok (⟨["imported", "experiments"], [],
        [⟨expRef, "./experiments/", ""⟩,
         ⟨.obj [("@id", .str "./imported/results.csv"), ("@type", .str "File")],
           "./results.csv", "imported"⟩],
        [], [importedFolder], ⟨2, 0, 0⟩⟩, ⟨some rootMain, some descE⟩)) := rfl
  obtain ⟨res, h1, h2⟩ := c7_root_has_part_extension.2.2.2.2.2.2 noOpLoader optionsDefault 10
    (.Merge graphMain [mcImported]) _ _ descE rootMain hphase rfl rfl
  exact ⟨res, h1, h2⟩

/-! ## Claim C3: the union merge of two values -/

def isScalar : JValue → Bool
  | .arr _ => false
  | .obj _ => false
  | _ => true

def keysNodup (fields : List (String × JValue)) : Prop := (fields.map Prod.fst).Nodup

theorem getKey_eq_none_of_not_mem (fields : List (String × JValue)) (k : String)
    (h : k ∉ fields.map Prod.fst) : getKey fields k = none := by
  induction fields with
  | nil => rfl
  | cons p rest ih =>
    obtain ⟨k2, w⟩ := p
    simp only [getKey]
    rw [if_neg (fun hh => h (by simp [hh]))]
    exact ih (fun hh => h (by simp [hh]))

theorem getKey_merge_objects : ∀ (b r : List (String × JValue)), keysNodup b →
    ∀ k, getKey (merge_objects r b) k =
      (match getKey r k, getKey b k with
       | some va, some vb => some (union_merge_values va vb)
       | some va, none => some va
       | none, some vb => some vb
       | none, none => none) := by
  intro b
  induction b with
  | nil =>
    intro r _ k
    cases hgr : getKey r k <;> simp [merge_objects, getKey, hgr]
  | cons p rest ih =>
    obtain ⟨kb, vb⟩ := p
    intro r hnd k
    have hnd2 := List.nodup_cons.mp hnd
    rw [show merge_objects r ((kb, vb) :: rest) =
      merge_objects (match getKey r kb with
        | some va => objInsert r kb (union_merge_values va vb)
        | none => objInsert r kb vb) rest from by simp [merge_objects]]
    rw [ih _ hnd2.2 k]
    by_cases hk : k = kb
    · subst hk
      have hrest : getKey rest k = none := getKey_eq_none_of_not_mem rest k hnd2.1
      rw [hrest]
      cases hgr : getKey r k <;>
        simp [hgr, getKey, getKey_objInsert_self]
    · have hcons : getKey ((kb, vb) :: rest) k = getKey rest k := by
        simp only [getKey]
        rw [if_neg (fun hh => hk hh.symm)]
      rw [hcons]
      cases hgr : getKey r k <;>
        cases hgr2 : getKey rest k <;>
        cases hgrb : getKey r kb <;>
        simp [hgr, hgr2, hgrb, getKey_objInsert_ne _ kb k _ hk]

def refX : JValue := .obj [("@id", .str "#x")]

def refY : JValue := .obj [("@id", .str "#y")]

/-- Counterexample for C3: two single-identifier reference objects with
different identifiers are not turned into the 2-element list of both;
they are merged key-wise into one object whose identifier field holds
the list of the two identifiers. -/
theorem c3_counterexample :
    union_merge_values refX refY = .obj [("@id", .arr [.str "#x", .str "#y"])] ∧
    union_merge_values refX refY ≠ .arr [refX, refY] := by
  have h : union_merge_values refX refY = .obj [("@id", .arr [.str "#x", .str "#y"])] := by
    simp [union_merge_values, values_equal, jStructEq, refX, refY, merge_objects, getKey,
      objInsert, jStructEqFields]
  exact ⟨h, by rw [h]; exact fun hc => JValue.noConfusion hc⟩

/-- Claim C3 as amended: semantically equal values return the left side;
two mapping-shaped values that are not semantically equal are always
merged key-wise, whether or not they are single-identifier reference
objects: keys unique to either side pass through, keys present on both
sides are merged by the same rule; two different scalars, or a scalar
against a mapping, fall back to the 2-element list of both. -/
theorem c3_union_merge_value_cases :
    (∀ a b : JValue, values_equal a b = true → union_merge_values a b = a) ∧
    (∀ fa fb : List (String × JValue), values_equal (.obj fa) (.obj fb) = false →
      union_merge_values (.obj fa) (.obj fb) = .obj (merge_objects fa fb)) ∧
    (∀ fa fb : List (String × JValue), keysNodup fb →
      ∀ k, getKey (merge_objects fa fb) k =
        (match getKey fa k, getKey fb k with
         | some va, some vb => some (union_merge_values va vb)
         | some va, none => some va
         | none, some vb => some vb
         | none, none => none)) ∧
    (∀ a b : JValue, isScalar a = true → isScalar b = true → values_equal a b = false →
      union_merge_values a b = .arr [a, b]) ∧
    (∀ (a : JValue) (fb : List (String × JValue)), isScalar a = true →
      union_merge_values a (.obj fb) = .arr [a, .obj fb] ∧
      union_merge_values (.obj fb) a = .arr [.obj fb, a]) := by
  refine ⟨?_, ?_, ?_, ?_, ?_⟩
  · intro a b h
    rw [union_merge_values.eq_def, h]
    rw [if_pos rfl]
  · intro fa fb h
    rw [union_merge_values.eq_def, h]
    simp
  · intro fa fb hnd k
    exact getKey_merge_objects fb fa hnd k
  · intro a b ha hb hne
    cases a <;> cases b <;>
      first
        | exact absurd ha Bool.false_ne_true
        | exact absurd hb Bool.false_ne_true
        | simp [union_merge_values, hne]
  · intro a fb ha
    cases a <;>
      first
        | exact absurd ha Bool.false_ne_true
        | (constructor <;> simp [union_merge_values, values_equal, jStructEq])

/-- Witness for C3 at concrete inputs. -/
theorem c3_witness :
    union_merge_values (.str "x") (.str "x") = .str "x" ∧
    union_merge_values refX refY = .obj (merge_objects [("@id", .str "#x")] [("@id", .str "#y")]) ∧
    getKey (merge_objects [("@id", .str "#x")] [("@id", .str "#y")]) "@id" =
      some (union_merge_values (.str "#x") (.str "#y")) ∧
    union_merge_values (.str "a") (.str "b") = .arr [.str "a", .str "b"] ∧
    union_merge_values (.str "a") (.obj [("x", .num 1)]) =
      .arr [.str "a", .obj [("x", .num 1)]] := by
  refine ⟨c3_union_merge_value_cases.1 (.str "x") (.str "x") (by decide), ?_, ?_,
    c3_union_merge_value_cases.2.2.2.1 (.str "a") (.str "b") rfl rfl (by decide),
    (c3_union_merge_value_cases.2.2.2.2 (.str "a") [("x", .num 1)] rfl).1⟩
  · exact c3_union_merge_value_cases.2.1 [("@id", .str "#x")] [("@id", .str "#y")] (by decide)
  · have h := c3_union_merge_value_cases.2.2.1 [("@id", .str "#x")] [("@id", .str "#y")]
      (by simp [keysNodup]) "@id"
    rw [h]
    rfl

/-! ## Claim C6: key sets under merge fold reorderings -/

theorem getKey_isSome_iff_mem (fields : List (String × JValue)) (k : String) :
    (getKey fields k).isSome = true ↔ k ∈ fields.map Prod.fst := by
  induction fields with
  | nil => simp [getKey]
  | cons p rest ih =>
    obtain ⟨k2, w⟩ := p
    simp only [getKey, List.map_cons, List.mem_cons]
    split
    next h => simp [h.symm]
    next h =>
      rw [ih]
      constructor
      · exact fun hh => Or.inr hh
      · rintro (rfl | hh)
        · exact absurd rfl h
        · exact hh

theorem mem_dedupAdj : ∀ (l : List String) (x : String), x ∈ dedupAdj l ↔ x ∈ l := by
  intro l
  induction l with
  | nil => intro x; simp [dedupAdj]
  | cons a rest ih =>
    cases rest with
    | nil => intro x; simp [dedupAdj]
    | cons b rest2 =>
      intro x
      rw [show dedupAdj (a :: b :: rest2) =
        if a = b then dedupAdj (b :: rest2) else a :: dedupAdj (b :: rest2) from rfl]
      split
      next hab =>
        rw [ih x]
        subst hab
        simp [List.mem_cons]
      next hab =>
        simp only [List.mem_cons, ih x]

theorem mem_insertSorted : ∀ (l : List String) (y x : String),
    x ∈ insertSorted y l ↔ x = y ∨ x ∈ l := by
  intro l
  induction l with
  | nil => intro y x; simp [insertSorted]
  | cons a rest ih =>
    intro y x
    rw [show insertSorted y (a :: rest) =
      if y ≤ a then y :: a :: rest else a :: insertSorted y rest from rfl]
    split
    · simp [List.mem_cons]
    · simp only [List.mem_cons, ih y x]
      tauto

theorem mem_sortStr : ∀ (l : List String) (x : String), x ∈ sortStr l ↔ x ∈ l := by
  intro l
  induction l with
  | nil => intro x; simp [sortStr]
  | cons a rest ih =>
    intro x
    rw [show sortStr (a :: rest) = insertSorted a (sortStr rest) from rfl,
      mem_insertSorted]
    simp [List.mem_cons, ih x]

theorem mem_merge_type_arrays : ∀ (b a : List String) (t : String),
    t ∈ merge_type_arrays a b ↔ t ∈ a ∨ t ∈ b := by
  intro b
  induction b with
  | nil => intro a t; simp [merge_type_arrays]
  | cons t0 rest ih =>
    intro a t
    rw [show merge_type_arrays a (t0 :: rest) =
      merge_type_arrays (if a.contains t0 then a else a ++ [t0]) rest from rfl, ih]
    split
    next hc =>
      have ht0 : t0 ∈ a := List.elem_iff.mp hc
      simp only [List.mem_cons]
      constructor
      · rintro (h | h)
        · exact Or.inl h
        · exact Or.inr (Or.inr h)
      · rintro (h | rfl | h)
        · exact Or.inl h
        · exact Or.inl ht0
        · exact Or.inr h
    next hc =>
      simp only [List.mem_append, List.mem_singleton, List.mem_cons]
      tauto

theorem mem_keys_replace (r : List (String × JValue)) (k0 : String) (v : JValue) (k : String) :
    (k ∈ (r.map (fun p => if p.1 == k0 then (k0, v) else p)).map Prod.fst) ↔
      k ∈ r.map Prod.fst := by
  induction r with
  | nil => simp
  | cons p rest ih =>
    obtain ⟨k2, w⟩ := p
    by_cases h2 : (k2 == k0) = true
    · have hk2 : k2 = k0 := by simpa using h2
      subst hk2
      simp only [List.map_cons, if_pos h2]
      simp only [List.map_cons, List.mem_cons]
      rw [ih]
    · simp only [List.map_cons, if_neg h2]
      simp only [List.map_cons, List.mem_cons]
      rw [ih]

theorem mem_keys_objInsert (r : List (String × JValue)) (k0 : String) (v : JValue)
    (k : String) : (k ∈ (objInsert r k0 v).map Prod.fst) ↔ k ∈ r.map Prod.fst ∨ k = k0 := by
  unfold objInsert
  split
  next hany =>
    rw [mem_keys_replace]
    constructor
    · exact fun h => Or.inl h
    · rintro (h | rfl)
      · exact h
      · obtain ⟨p, hp, hpk⟩ := List.any_eq_true.mp hany
        have : p.1 = k := by simpa using hpk
        exact this ▸ List.mem_map_of_mem Prod.fst hp
  next hany =>
    simp [List.mem_append, List.mem_cons]

theorem ume_fold_getKey_ne (fa fb : List (String × JValue)) :
    ∀ (aks : List String) (r : List (String × JValue)) (k : String), k ∉ aks →
    getKey (aks.foldl (fun r k =>
      match getKey fa k, getKey fb k with
      | some va, some vb => objInsert r k (union_merge_values va vb)
      | some v, none => objInsert r k v
      | none, some v => objInsert r k v
      | none, none => r) r) k = getKey r k := by
  intro aks
  induction aks with
  | nil => intro r k _; rfl
  | cons k0 rest ih =>
    intro r k hk
    have hk0 : k ≠ k0 := fun h => hk (h ▸ List.mem_cons_self k0 rest)
    have hkr : k ∉ rest := fun h => hk (List.mem_cons_of_mem k0 h)
    rw [List.foldl_cons, ih _ k hkr]
    cases hga : getKey fa k0 <;> cases hgb : getKey fb k0 <;>
      simp [hga, hgb, getKey_objInsert_ne _ k0 k _ hk0]

theorem ume_fold_mem_keys (fa fb : List (String × JValue)) :
    ∀ (aks : List String) (r : List (String × JValue)),
    (∀ k ∈ aks, (getKey fa k).isSome = true ∨ (getKey fb k).isSome = true) →
    ∀ k, (k ∈ ((aks.foldl (fun r k =>
      match getKey fa k, getKey fb k with
      | some va, some vb => objInsert r k (union_merge_values va vb)
      | some v, none => objInsert r k v
      | none, some v => objInsert r k v
      | none, none => r) r)).map Prod.fst) ↔ k ∈ r.map Prod.fst ∨ k ∈ aks := by
  intro aks
  induction aks with
  | nil => intro r _ k; simp
  | cons k0 rest ih =>
    intro r hsome k
    rw [List.foldl_cons, ih _ (fun k2 h2 => hsome k2 (List.mem_cons_of_mem k0 h2)) k]
    have hmem : ∀ (v : JValue), (k ∈ (objInsert r k0 v).map Prod.fst) ↔
        k ∈ r.map Prod.fst ∨ k = k0 := fun v => mem_keys_objInsert r k0 v k
    rcases hsome k0 (List.mem_cons_self k0 rest) with h | h
    · rcases hga : getKey fa k0 with _ | va
      · rw [hga] at h; simp at h
      · cases hgb : getKey fb k0 <;>
          simp [hga, hgb, hmem, List.mem_cons] <;> tauto
    · rcases hgb : getKey fb k0 with _ | vb
      · rw [hgb] at h; simp at h
      · cases hga : getKey fa k0 <;>
          simp [hga, hgb, hmem, List.mem_cons] <;> tauto

def entTypes (e : JValue) : List String :=
  match e with
  | .obj fs => extract_types_as_vec fs
  | _ => []

def entOth (e : JValue) : List String :=
  match e with
  | .obj fs => (fs.map Prod.fst).filter (fun k => k ≠ "@id" && k ≠ "@type")
  | _ => []

theorem filterMap_str_map (l : List String) :
    (l.map JValue.str).filterMap
      (fun v => match v with | .str s => some s | _ => none) = l := by
  induction l with
  | nil => rfl
  | cons t rest ih => simp [List.filterMap_cons, ih]

theorem ume_obj_eq (fa fb : List (String × JValue)) :
    union_merge_entities (.obj fa) (.obj fb) = .obj (
      (dedupAdj (sortStr (((fa.map Prod.fst) ++ (fb.map Prod.fst)).filter
        (fun k => k ≠ "@id" && k ≠ "@type")))).foldl
        (fun r k => match getKey fa k, getKey fb k with
          | some va, some vb => objInsert r k (union_merge_values va vb)
          | some v, none => objInsert r k v
          | none, some v => objInsert r k v
          | none, none => r)
        (if (merge_type_arrays (extract_types_as_vec fa) (extract_types_as_vec fb)).isEmpty
         then (match getKey fa "@id" with | some id => [("@id", id)] | none => [])
         else if (merge_type_arrays (extract_types_as_vec fa)
             (extract_types_as_vec fb)).length = 1 then
           objInsert (match getKey fa "@id" with | some id => [("@id", id)] | none => [])
             "@type" (.str (merge_type_arrays (extract_types_as_vec fa)
               (extract_types_as_vec fb)).head!)
         else
           objInsert (match getKey fa "@id" with | some id => [("@id", id)] | none => [])
             "@type" (.arr ((merge_type_arrays (extract_types_as_vec fa)
               (extract_types_as_vec fb)).map JValue.str)))) := rfl

theorem exists_mem_merge_type_arrays (a b : List String) :
    (∃ t : String, t ∈ a ∨ t ∈ b) ↔ merge_type_arrays a b ≠ [] := by
  constructor
  · rintro ⟨t, ht⟩ h
    have h2 := (mem_merge_type_arrays b a t).mpr ht
    rw [h] at h2
    cases h2
  · intro h
    rcases hm : merge_type_arrays a b with _ | ⟨t, rest⟩
    · exact absurd hm h
    · exact ⟨t, (mem_merge_type_arrays b a t).mp (hm ▸ List.mem_cons_self t rest)⟩

theorem tvec_of_getKey_none (fs : List (String × JValue))
    (h : getKey fs "@type" = none) : extract_types_as_vec fs = [] := by
  simp [extract_types_as_vec, h]

theorem tvec_of_getKey_str (fs : List (String × JValue)) (t : String)
    (h : getKey fs "@type" = some (.str t)) : extract_types_as_vec fs = [t] := by
  simp [extract_types_as_vec, h]

theorem tvec_of_getKey_arr (fs : List (String × JValue)) (xs : List JValue)
    (h : getKey fs "@type" = some (.arr xs)) : extract_types_as_vec fs =
      xs.filterMap (fun v => match v with | .str s => some s | _ => none) := by
  simp [extract_types_as_vec, h]

theorem ume_shape (fa fb : List (String × JValue)) (i : String)
    (hid : getKey fa "@id" = some (.str i)) :
    ∃ fr, union_merge_entities (.obj fa) (.obj fb) = .obj fr ∧
      getKey fr "@id" = some (.str i) ∧
      (∀ t, t ∈ extract_types_as_vec fr ↔
        t ∈ extract_types_as_vec fa ∨ t ∈ extract_types_as_vec fb) ∧
      (∀ k, (k ∈ fr.map Prod.fst) ↔
        (k = "@id" ∨
         (k = "@type" ∧ ∃ t, (t ∈ extract_types_as_vec fa ∨ t ∈ extract_types_as_vec fb)) ∨
         (k ≠ "@id" ∧ k ≠ "@type" ∧ (k ∈ fa.map Prod.fst ∨ k ∈ fb.map Prod.fst)))) := by
  have hmemaks : ∀ k, (k ∈ dedupAdj (sortStr (((fa.map Prod.fst) ++ (fb.map Prod.fst)).filter
      (fun k => k ≠ "@id" && k ≠ "@type")))) ↔
      (k ≠ "@id" ∧ k ≠ "@type" ∧ (k ∈ fa.map Prod.fst ∨ k ∈ fb.map Prod.fst)) := by
    intro k
    rw [mem_dedupAdj, mem_sortStr, List.mem_filter, List.mem_append]
    simp only [Bool.and_eq_true, decide_eq_true_eq]
    tauto
  have hid_naks : "@id" ∉ dedupAdj (sortStr (((fa.map Prod.fst) ++ (fb.map Prod.fst)).filter
      (fun k => k ≠ "@id" && k ≠ "@type"))) := by
    rw [hmemaks]
    simp
  have htype_naks : "@type" ∉ dedupAdj (sortStr (((fa.map Prod.fst)
      ++ (fb.map Prod.fst)).filter (fun k => k ≠ "@id" && k ≠ "@type"))) := by
    rw [hmemaks]
    simp
  have hsome : ∀ k ∈ dedupAdj (sortStr (((fa.map Prod.fst) ++ (fb.map Prod.fst)).filter
      (fun k => k ≠ "@id" && k ≠ "@type"))),
      (getKey fa k).isSome = true ∨ (getKey fb k).isSome = true := by
    intro k hk
    rcases (hmemaks k).mp hk with ⟨_, _, hmem | hmem⟩
    · exact Or.inl ((getKey_isSome_iff_mem fa k).mpr hmem)
    · exact Or.inr ((getKey_isSome_iff_mem fb k).mpr hmem)
  have hexists := exists_mem_merge_type_arrays (extract_types_as_vec fa)
    (extract_types_as_vec fb)
  have hmemmt := fun t => mem_merge_type_arrays (extract_types_as_vec fb)
    (extract_types_as_vec fa) t
  refine ⟨_, ume_obj_eq fa fb, ?_⟩
  simp only [hid]
  rcases hmtc : merge_type_arrays (extract_types_as_vec fa) (extract_types_as_vec fb) with
    _ | ⟨t1, mrest⟩
  · rw [hmtc] at hexists hmemmt
    rw [if_pos (show ([] : List String).isEmpty = true by decide)]
    refine ⟨?_, ?_, ?_⟩
    · rw [ume_fold_getKey_ne fa fb _ _ "@id" hid_naks]
      rfl
    · intro t
      rw [tvec_of_getKey_none _ (by
        rw [ume_fold_getKey_ne fa fb _ _ "@type" htype_naks]
        rfl)]
      constructor
      · intro h; cases h
      · intro h
        exact absurd (hexists.mp ⟨t, h⟩) (by simp)
    · intro k
      rw [ume_fold_mem_keys fa fb _ _ hsome k, hmemaks k]
      rw [show List.map Prod.fst [("@id", JValue.str i)] = ["@id"] from rfl]
      simp only [List.mem_singleton]
      constructor
      · rintro (rfl | h)
        · exact Or.inl rfl
        · exact Or.inr (Or.inr h)
      · rintro (rfl | ⟨_, h⟩ | h)
        · exact Or.inl rfl
        · exact absurd (hexists.mp h) (by simp)
        · exact Or.inr h
  · rcases mrest with _ | ⟨t2, mrest2⟩
    · rw [hmtc] at hexists hmemmt
      rw [if_neg (by simp), if_pos (show ([t1] : List String).length = 1 by simp)]
      refine ⟨?_, ?_, ?_⟩
      · rw [ume_fold_getKey_ne fa fb _ _ "@id" hid_naks]
        rfl
      · intro t
        rw [tvec_of_getKey_str _ ([t1].head!) (by
          rw [ume_fold_getKey_ne fa fb _ _ "@type" htype_naks]
          rfl)]
        rw [show (t ∈ extract_types_as_vec fa ∨ t ∈ extract_types_as_vec fb)
          ↔ t ∈ [t1] from (hmemmt t).symm]
        rw [show ([t1].head! : String) = t1 from rfl]
      · intro k
        rw [ume_fold_mem_keys fa fb _ _ hsome k, hmemaks k]
        rw [show List.map Prod.fst (objInsert [("@id", JValue.str i)] "@type"
          (.str ([t1].head!))) = ["@id", "@type"] from rfl]
        simp only [List.mem_cons, List.mem_singleton, List.not_mem_nil, or_false]
        constructor
        · rintro ((rfl | rfl) | h)
          · exact Or.inl rfl
          · exact Or.inr (Or.inl ⟨rfl, by rw [hexists]; simp⟩)
          · exact Or.inr (Or.inr h)
        · rintro (rfl | ⟨rfl, _⟩ | h)
          · exact Or.inl (Or.inl rfl)
          · exact Or.inl (Or.inr rfl)
          · exact Or.inr h
    · rw [hmtc] at hexists hmemmt
      rw [if_neg (by simp), if_neg (show ¬ (t1 :: t2 :: mrest2).length = 1 by
        simp only [List.length_cons]; omega)]
      refine ⟨?_, ?_, ?_⟩
      · rw [ume_fold_getKey_ne fa fb _ _ "@id" hid_naks]
        rfl
      · intro t
        rw [tvec_of_getKey_arr _ ((t1 :: t2 :: mrest2).map JValue.str) (by
          rw [ume_fold_getKey_ne fa fb _ _ "@type" htype_naks]
          rfl)]
        rw [filterMap_str_map]
        exact hmemmt t
      · intro k
        rw [ume_fold_mem_keys fa fb _ _ hsome k, hmemaks k]
        rw [show List.map Prod.fst (objInsert [("@id", JValue.str i)] "@type"
          (.arr ((t1 :: t2 :: mrest2).map JValue.str))) = ["@id", "@type"] from rfl]
        simp only [List.mem_cons, List.mem_singleton, List.not_mem_nil, or_false]
        constructor
        · rintro ((rfl | rfl) | h)
          · exact Or.inl rfl
          · exact Or.inr (Or.inl ⟨rfl, by rw [hexists]; simp⟩)
          · exact Or.inr (Or.inr h)
        · rintro (rfl | ⟨rfl, _⟩ | h)
          · exact Or.inl (Or.inl rfl)
          · exact Or.inl (Or.inr rfl)
          · exact Or.inr h

def entity_has_id (e : JValue) (i : String) : Prop :=
  ∃ fs, e = .obj fs ∧ getKey fs "@id" = some (.str i)

/-- The left fold of `union_merge_entities` over a group, first element
as the seed, as `merge_by_id` folds a group. -/
def fold_merge : List JValue → JValue
  | [] => .null
  | e :: rest => rest.foldl union_merge_entities e

/-- The shape every fold result has: an object with the common
identifier whose type vector and key set are characterized by the type
and other-key accumulations `T` and `S`. -/
def MergedForm (acc : JValue) (i : String) (T S : List String) : Prop :=
  ∃ fs, acc = .obj fs ∧ getKey fs "@id" = some (.str i) ∧
    (∀ t, t ∈ extract_types_as_vec fs ↔ t ∈ T) ∧
    (∀ k, (k ∈ fs.map Prod.fst) ↔
      (k = "@id" ∨ (k = "@type" ∧ ∃ t, t ∈ T) ∨ (k ≠ "@id" ∧ k ≠ "@type" ∧ k ∈ S)))

theorem mem_entOth_obj (fe : List (String × JValue)) (k : String) (h1 : k ≠ "@id")
    (h2 : k ≠ "@type") : (k ∈ entOth (.obj fe)) ↔ k ∈ fe.map Prod.fst := by
  simp [entOth, List.mem_filter, h1, h2]

theorem MergedForm_congr (acc : JValue) (i : String) (T S T2 S2 : List String)
    (hT : ∀ t, t ∈ T ↔ t ∈ T2)
    (hS : ∀ k, k ≠ "@id" → k ≠ "@type" → (k ∈ S ↔ k ∈ S2))
    (h : MergedForm acc i T S) : MergedForm acc i T2 S2 := by
  obtain ⟨fs, rfl, hid, hT0, hK0⟩ := h
  refine ⟨fs, rfl, hid, fun t => (hT0 t).trans (hT t), fun k => (hK0 k).trans ?_⟩
  constructor
  · rintro (rfl | ⟨rfl, t, ht⟩ | ⟨ha, hb, hk⟩)
    · exact Or.inl rfl
    · exact Or.inr (Or.inl ⟨rfl, t, (hT t).mp ht⟩)
    · exact Or.inr (Or.inr ⟨ha, hb, (hS k ha hb).mp hk⟩)
  · rintro (rfl | ⟨rfl, t, ht⟩ | ⟨ha, hb, hk⟩)
    · exact Or.inl rfl
    · exact Or.inr (Or.inl ⟨rfl, t, (hT t).mpr ht⟩)
    · exact Or.inr (Or.inr ⟨ha, hb, (hS k ha hb).mpr hk⟩)

theorem mergedForm_of_shape (fs fe : List (String × JValue)) (i : String)
    (hid : getKey fs "@id" = some (.str i)) :
    MergedForm (union_merge_entities (.obj fs) (.obj fe)) i
      (extract_types_as_vec fs ++ extract_types_as_vec fe)
      (entOth (.obj fs) ++ entOth (.obj fe)) := by
  obtain ⟨fr, heq, hid2, hT2, hK2⟩ := ume_shape fs fe i hid
  rw [heq]
  refine ⟨fr, rfl, hid2, ?_, ?_⟩
  · intro t
    rw [hT2 t, List.mem_append]
  · intro k
    rw [hK2 k]
    constructor
    · rintro (rfl | ⟨rfl, t, ht⟩ | ⟨ha, hb, hm⟩)
      · exact Or.inl rfl
      · exact Or.inr (Or.inl ⟨rfl, t, List.mem_append.mpr ht⟩)
      · refine Or.inr (Or.inr ⟨ha, hb, List.mem_append.mpr ?_⟩)
        rcases hm with hm | hm
        · exact Or.inl ((mem_entOth_obj fs k ha hb).mpr hm)
        · exact Or.inr ((mem_entOth_obj fe k ha hb).mpr hm)
    · rintro (rfl | ⟨rfl, t, ht⟩ | ⟨ha, hb, hm⟩)
      · exact Or.inl rfl
      · exact Or.inr (Or.inl ⟨rfl, t, List.mem_append.mp ht⟩)
      · refine Or.inr (Or.inr ⟨ha, hb, ?_⟩)
        rcases List.mem_append.mp hm with hm2 | hm2
        · exact Or.inl ((mem_entOth_obj fs k ha hb).mp hm2)
        · exact Or.inr ((mem_entOth_obj fe k ha hb).mp hm2)

theorem mergedForm_step (acc e : JValue) (i : String) (T S : List String)
    (hacc : MergedForm acc i T S) (he : ∃ fe, e = .obj fe) :
    MergedForm (union_merge_entities acc e) i (T ++ entTypes e) (S ++ entOth e) := by
  obtain ⟨fs, rfl, hid, hT0, hK0⟩ := hacc
  obtain ⟨fe, rfl⟩ := he
  refine MergedForm_congr _ i _ _ _ _ ?_ ?_ (mergedForm_of_shape fs fe i hid)
  · intro t
    rw [List.mem_append, List.mem_append, hT0 t]
    exact Iff.rfl
  · intro k hka hkb
    rw [List.mem_append, List.mem_append, mem_entOth_obj fs k hka hkb, hK0 k]
    constructor
    · rintro ((rfl | ⟨rfl, _⟩ | ⟨_, _, hk⟩) | hm)
      · exact absurd rfl hka
      · exact absurd rfl hkb
      · exact Or.inl hk
      · exact Or.inr hm
    · rintro (hm | hm)
      · exact Or.inl (Or.inr (Or.inr ⟨hka, hkb, hm⟩))
      · exact Or.inr hm

theorem mergedForm_fold : ∀ (rest : List JValue) (acc : JValue) (i : String)
    (T S : List String), MergedForm acc i T S → (∀ e ∈ rest, ∃ fe, e = .obj fe) →
    MergedForm (rest.foldl union_merge_entities acc) i
      (T ++ rest.flatMap entTypes) (S ++ rest.flatMap entOth) := by
  intro rest
  induction rest with
  | nil =>
    intro acc i T S h _
    refine MergedForm_congr _ i T S _ _ ?_ ?_ h <;> simp
  | cons e rest2 ih =>
    intro acc i T S h hall
    rw [List.foldl_cons]
    have hstep := mergedForm_step acc e i T S h (hall e (List.mem_cons_self e rest2))
    have hrec := ih _ i _ _ hstep (fun e2 h2 => hall e2 (List.mem_cons_of_mem e h2))
    refine MergedForm_congr _ i _ _ _ _ ?_ ?_ hrec
    · intro t
      simp [List.mem_append, or_assoc]
    · intro k _ _
      simp [List.mem_append, or_assoc]

theorem fold_merge_hasKey (e1 e2 : JValue) (rest : List JValue) (i : String)
    (hall : ∀ e ∈ e1 :: e2 :: rest, entity_has_id e i) : ∀ k,
    (jget (fold_merge (e1 :: e2 :: rest)) k).isSome = true ↔
      (k = "@id" ∨
       (k = "@type" ∧ ∃ t, t ∈ (e1 :: e2 :: rest).flatMap entTypes) ∨
       (k ≠ "@id" ∧ k ≠ "@type" ∧ k ∈ (e1 :: e2 :: rest).flatMap entOth)) := by
  obtain ⟨fs1, rfl, hid1⟩ := hall e1 (List.mem_cons_self _ _)
  obtain ⟨fs2, rfl, hid2⟩ := hall _ (List.mem_cons_of_mem _ (List.mem_cons_self _ _))
  have hbase := mergedForm_of_shape fs1 fs2 i hid1
  have hfold := mergedForm_fold rest _ i _ _ hbase
    (fun e he => by
      obtain ⟨fe, rfl, _⟩ := hall e (List.mem_cons_of_mem _ (List.mem_cons_of_mem _ he))
      exact ⟨fe, rfl⟩)
  rw [show fold_merge (.obj fs1 :: .obj fs2 :: rest) =
    rest.foldl union_merge_entities (union_merge_entities (.obj fs1) (.obj fs2)) from rfl]
  obtain ⟨fr, heq, hidr, hTr, hKr⟩ := hfold
  rw [heq]
  intro k
  rw [show jget (JValue.obj fr) k = getKey fr k from rfl, getKey_isSome_iff_mem, hKr k]
  constructor
  · rintro (rfl | ⟨rfl, t, ht⟩ | ⟨ha, hb, hk⟩)
    · exact Or.inl rfl
    · refine Or.inr (Or.inl ⟨rfl, t, ?_⟩)
      simp only [List.flatMap_cons]
      simp only [List.mem_append, List.mem_append] at ht ⊢
      rcases ht with (h | h) | h
      · exact Or.inl (by simpa [entTypes] using h)
      · exact Or.inr (Or.inl (by simpa [entTypes] using h))
      · exact Or.inr (Or.inr h)
    · refine Or.inr (Or.inr ⟨ha, hb, ?_⟩)
      simp only [List.flatMap_cons]
      simp only [List.mem_append, List.mem_append] at hk ⊢
      tauto
  · rintro (rfl | ⟨rfl, t, ht⟩ | ⟨ha, hb, hk⟩)
    · exact Or.inl rfl
    · refine Or.inr (Or.inl ⟨rfl, t, ?_⟩)
      simp only [List.flatMap_cons] at ht
      simp only [List.mem_append] at ht ⊢
      rcases ht with h | h | h
      · exact Or.inl (Or.inl (by simpa [entTypes] using h))
      · exact Or.inl (Or.inr (by simpa [entTypes] using h))
      · exact Or.inr h
    · refine Or.inr (Or.inr ⟨ha, hb, ?_⟩)
      simp only [List.flatMap_cons] at hk
      simp only [List.mem_append] at hk ⊢
      tauto

/-- C6, corrected: for a group of three or more entities sharing one
identifier, left-folding `union_merge_entities` over any reordering of
the group yields the same final set of property keys; the per-key element
sets are NOT preserved (see the counterexample below). -/
theorem c6_merged_key_set_fold_order_invariant (l1 l2 : List JValue) (i : String)
    (hperm : l1.Perm l2) (hlen : 3 ≤ l1.length)
    (hall : ∀ e ∈ l1, entity_has_id e i) (k : String) :
    (jget (fold_merge l1) k).isSome = (jget (fold_merge l2) k).isSome := by
  rcases l1 with _ | ⟨a, l1t⟩
  · simp at hlen
  rcases l1t with _ | ⟨b, r⟩
  · simp at hlen
  rcases l2 with _ | ⟨c, l2t⟩
  · have h := hperm.length_eq
    simp at h
  rcases l2t with _ | ⟨d, s⟩
  · have h := hperm.length_eq
    simp at h
  have hall2 : ∀ e ∈ c :: d :: s, entity_has_id e i :=
    fun e he => hall e (hperm.mem_iff.mpr he)
  have h1 := fold_merge_hasKey a b r i hall k
  have h2 := fold_merge_hasKey c d s i hall2 k
  have hiff : ((jget (fold_merge (a :: b :: r)) k).isSome = true) ↔
      ((jget (fold_merge (c :: d :: s)) k).isSome = true) := by
    rw [h1, h2]
    constructor
    · rintro (rfl | ⟨rfl, t, ht⟩ | ⟨ha, hb, hk⟩)
      · exact Or.inl rfl
      · refine Or.inr (Or.inl ⟨rfl, t, ?_⟩)
        rw [List.mem_flatMap] at ht ⊢
        obtain ⟨e, he, h3⟩ := ht
        exact ⟨e, hperm.mem_iff.mp he, h3⟩
      · refine Or.inr (Or.inr ⟨ha, hb, ?_⟩)
        rw [List.mem_flatMap] at hk ⊢
        obtain ⟨e, he, h3⟩ := hk
        exact ⟨e, hperm.mem_iff.mp he, h3⟩
    · rintro (rfl | ⟨rfl, t, ht⟩ | ⟨ha, hb, hk⟩)
      · exact Or.inl rfl
      · refine Or.inr (Or.inl ⟨rfl, t, ?_⟩)
        rw [List.mem_flatMap] at ht ⊢
        obtain ⟨e, he, h3⟩ := ht
        exact ⟨e, hperm.mem_iff.mpr he, h3⟩
      · refine Or.inr (Or.inr ⟨ha, hb, ?_⟩)
        rw [List.mem_flatMap] at hk ⊢
        obtain ⟨e, he, h3⟩ := hk
        exact ⟨e, hperm.mem_iff.mpr he, h3⟩
  cases hx : (jget (fold_merge (a :: b :: r)) k).isSome <;>
    cases hy : (jget (fold_merge (c :: d :: s)) k).isSome <;> simp_all

def wE1 : JValue := .obj [("@id", .str "#i"), ("p", .str "s")]

def wE2 : JValue := .obj [("@id", .str "#i"), ("p", .obj [("x", .num 1)])]

def wE3 : JValue := .obj [("@id", .str "#i"), ("p", .obj [("y", .num 2)])]

/-- The elements the merge policy regards a property value as holding: an
array lists its elements, any other value is a single element. -/
def elemsAt (d : JValue) (k : String) : List JValue :=
  match jget d k with
  | some (.arr xs) => xs
  | some v => [v]
  | none => []

theorem umv_sx : union_merge_values (.str "s") (.obj [("x", .num 1)]) =
    .arr [.str "s", .obj [("x", .num 1)]] := by
  rw [union_merge_values.eq_def]
  simp [values_equal, jStructEq]

theorem umv_arr_y : union_merge_values (.arr [.str "s", .obj [("x", .num 1)]])
    (.obj [("y", .num 2)]) =
    .arr [.str "s", .obj [("x", .num 1)], .obj [("y", .num 2)]] := by
  rw [union_merge_values.eq_def]
  simp [values_equal, jStructEq, jStructEqList, jStructEqFields, push_if_absent,
    contains_value, getKey]

theorem umv_xy : union_merge_values (.obj [("x", .num 1)]) (.obj [("y", .num 2)]) =
    .obj [("x", .num 1), ("y", .num 2)] := by
  rw [union_merge_values.eq_def]
  simp [values_equal, jStructEq, jStructEqFields, getKey, merge_objects, objInsert]

theorem umv_obj_s : union_merge_values (.obj [("x", .num 1), ("y", .num 2)])
    (.str "s") = .arr [.obj [("x", .num 1), ("y", .num 2)], .str "s"] := by
  rw [union_merge_values.eq_def]
  simp [values_equal, jStructEq]

theorem ume_two_field (i k : String) (va vb : JValue) (h1 : k ≠ "@id")
    (h2 : k ≠ "@type") :
    union_merge_entities (.obj [("@id", .str i), (k, va)])
      (.obj [("@id", .str i), (k, vb)]) =
    .obj [("@id", .str i), (k, union_merge_values va vb)] := by
  have h1s : "@id" ≠ k := Ne.symm h1
  have h2s : "@type" ≠ k := Ne.symm h2
  simp [union_merge_entities, getKey, objInsert, extract_types_as_vec,
    merge_type_arrays, sortStr, insertSorted, dedupAdj, h1, h2, h1s, h2s]

theorem foldA_eval : fold_merge [wE1, wE2, wE3] =
    .obj [("@id", .str "#i"),
      ("p", .arr [.str "s", .obj [("x", .num 1)], .obj [("y", .num 2)]])] := by
  show union_merge_entities (union_merge_entities
      (.obj [("@id", .str "#i"), ("p", .str "s")])
      (.obj [("@id", .str "#i"), ("p", .obj [("x", .num 1)])]))
      (.obj [("@id", .str "#i"), ("p", .obj [("y", .num 2)])]) = _
  rw [ume_two_field "#i" "p" _ _ (by decide) (by decide), umv_sx,
      ume_two_field "#i" "p" _ _ (by decide) (by decide), umv_arr_y]

theorem foldB_eval : fold_merge [wE2, wE3, wE1] =
    .obj [("@id", .str "#i"),
      ("p", .arr [.obj [("x", .num 1), ("y", .num 2)], .str "s"])] := by
  show union_merge_entities (union_merge_entities
      (.obj [("@id", .str "#i"), ("p", .obj [("x", .num 1)])])
      (.obj [("@id", .str "#i"), ("p", .obj [("y", .num 2)])]))
      (.obj [("@id", .str "#i"), ("p", .str "s")]) = _
  rw [ume_two_field "#i" "p" _ _ (by decide) (by decide), umv_xy,
      ume_two_field "#i" "p" _ _ (by decide) (by decide), umv_obj_s]

theorem c6_counterexample :
    List.Perm [wE1, wE2, wE3] [wE2, wE3, wE1] ∧
    (∀ e ∈ [wE1, wE2, wE3], entity_has_id e "#i") ∧
    (elemsAt (fold_merge [wE1, wE2, wE3]) "p").any
        (fun u => jStructEq u (.obj [("x", .num 1)])) = true ∧
    (elemsAt (fold_merge [wE2, wE3, wE1]) "p").any
        (fun u => jStructEq u (.obj [("x", .num 1)])) = false := by
  refine ⟨@List.perm_append_comm JValue [wE1] [wE2, wE3], ?_, ?_, ?_⟩
  · intro e he
    simp only [List.mem_cons, List.not_mem_nil, or_false] at he
    rcases he with rfl | rfl | rfl
    · exact ⟨_, rfl, rfl⟩
    · exact ⟨_, rfl, rfl⟩
    · exact ⟨_, rfl, rfl⟩
  · rw [foldA_eval]
    simp [elemsAt, jget, getKey, jStructEq, jStructEqFields]
  · rw [foldB_eval]
    simp [elemsAt, jget, getKey, jStructEq, jStructEqFields]

theorem c6_witness :
    (jget (fold_merge [wE1, wE2, wE3]) "p").isSome
      = (jget (fold_merge [wE2, wE3, wE1]) "p").isSome :=
  c6_merged_key_set_fold_order_invariant [wE1, wE2, wE3] [wE2, wE3, wE1] "#i"
    (@List.perm_append_comm JValue [wE1] [wE2, wE3])
    (by decide)
    (by
      intro e he
      simp only [List.mem_cons, List.not_mem_nil, or_false] at he
      rcases he with rfl | rfl | rfl
      · exact ⟨_, rfl, rfl⟩
      · exact ⟨_, rfl, rfl⟩
      · exact ⟨_, rfl, rfl⟩)
    "p"
